import Mathlib

/-!
# AppAndAPIErrorsByTime widget: cascading filters and query assembly

A shallow embedding of the state handling of
`AppAndAPIErrorsByTimeWidget.jsx` (class `AppAndAPIErrorsByTimeWidget`).

Modelling conventions.

* JavaScript scalars are the type `JSVal`; numbers are the integral ones.
* A React component state is the record `State`; `setState` is a record update.
* The widget channel manager is not executed: every call to it is recorded
  as an `Effect`, in call order.
* A method run is an `Outcome`: the state it leaves, the effects it issued and
  the first uncaught exception, if any.
* A record built by `handleQueryResults` is a `JSObject`: its own properties in
  the order JavaScript enumerates them (array indices first), and whether it
  still has `Object.prototype`; a write of `__proto__` goes to the setter of
  `Object.prototype` and creates no own property.
* The index selections (`selectedVersion`, `selectedResource`, `selectedApp`)
  are numbers, as the sentinel `-1` in the constructor is.
-/

namespace AppAndAPIErrorsByTimeWidget

/-! ## JavaScript values -/

/-- Scalar JavaScript values (numbers restricted to integers). -/
inductive JSVal where
  | undefined
  | null
  | bool (b : Bool)
  | num (n : Int)
  | str (s : String)
  deriving DecidableEq, Repr

/-- The string a value contributes to a `+` concatenation with a string. -/
def JSVal.toJSString : JSVal → String
  | .undefined => "undefined"
  | .null => "null"
  | .bool true => "true"
  | .bool false => "false"
  | .num n => toString n
  | .str s => s

/-- Uncaught exceptions: reading a property of `undefined`. -/
inductive JSError where
  | typeError
  deriving DecidableEq, Repr

/-- Array read `xs[i]` with a numeric index: `none` stands for `undefined`. -/
def jsIndex {α : Type} (xs : List α) (i : Int) : Option α :=
  if 0 ≤ i then xs.get? i.toNat else none

/-- Cell read `row[j]` of a row of scalars, `undefined` when out of range. -/
def cell (row : List JSVal) (j : Nat) : JSVal :=
  (row.get? j).getD JSVal.undefined

/-- Array `join`, on an array of strings. -/
def join (xs : List String) (sep : String) : String :=
  sep.intercalate xs

/-- The value of a decimal digit. -/
def digitValue (c : Char) : Option Nat :=
  if '0' ≤ c ∧ c ≤ '9' then some (c.toNat - 48) else none

/-- The number a string of decimal digits denotes, `none` for any other
string; `acc` is the value of the digits read so far. -/
def decimalValue : List Char → Nat → Option Nat
  | [], acc => some acc
  | c :: cs, acc =>
    match digitValue c with
    | some d => decimalValue cs (acc * 10 + d)
    | none => none

/-- The array index a property key denotes: the key is the canonical decimal
text (no leading zero) of an integer below `2^32 - 1`. -/
def arrayIndex (key : String) : Option Nat :=
  match key.data with
  | [] => none
  | c :: cs =>
    if c = '0' ∧ cs ≠ [] then none
    else
      match decimalValue (c :: cs) 0 with
      | some n => if n < 4294967295 then some n else none
      | none => none

/-- A new key `key` is enumerated before the existing key `k`: array indices
come first, in ascending order; the other keys keep their creation order. -/
def enumeratesBefore (key k : String) : Bool :=
  match arrayIndex key, arrayIndex k with
  | some n, some m => decide (n < m)
  | some _, none => true
  | none, _ => false

/-- The value of the own property `key` in a property list. -/
def ownLookup : List (String × JSVal) → String → Option JSVal
  | [], _ => none
  | (k, v) :: rest, key => if k = key then some v else ownLookup rest key

/-- A new value for an own property that exists: its place is kept. -/
def overwriteOwn : List (String × JSVal) → String → JSVal → List (String × JSVal)
  | [], _, _ => []
  | (k, v) :: rest, key, value =>
    if k = key then (k, value) :: rest else (k, v) :: overwriteOwn rest key value

/-- A new own property, put at its place in the enumeration order. -/
def insertOwn : List (String × JSVal) → String → JSVal → List (String × JSVal)
  | [], key, value => [(key, value)]
  | (k, v) :: rest, key, value =>
    if enumeratesBefore key k then (key, value) :: (k, v) :: rest
    else (k, v) :: insertOwn rest key value

/-- An own data property is written: overwritten when it exists, created
otherwise. -/
def defineOwn (own : List (String × JSVal)) (key : String) (value : JSVal) :
    List (String × JSVal) :=
  if key ∈ own.map Prod.fst then overwriteOwn own key value else insertOwn own key value

/-- A plain object that starts as the literal `{}` and is only written with
scalars: its own properties in the order JavaScript enumerates them, and
whether its prototype is still `Object.prototype` (the other possibility, after
`__proto__` was assigned `null`, is no prototype). -/
structure JSObject where
  own : List (String × JSVal)
  hasPrototype : Bool
  deriving DecidableEq, Repr

/-- The object literal `{}`. -/
def JSObject.empty : JSObject :=
  { own := [], hasPrototype := true }

/-- Property write `obj[key] = value`. The key `__proto__`, when the object
has no such own property and still has `Object.prototype`, reaches the setter
of `Object.prototype`: `null` removes the prototype, any other scalar is
ignored, and no own property is created. Every other write is a write of an
own data property. -/
def JSObject.set (obj : JSObject) (key : String) (value : JSVal) : JSObject :=
  if key = "__proto__" ∧ obj.hasPrototype = true ∧ key ∉ obj.own.map Prod.fst then
    if value = JSVal.null then { obj with hasPrototype := false } else obj
  else { obj with own := defineOwn obj.own key value }

/-- The value of the own property `key` of an object, `none` when the object
has no own property `key`. -/
def JSObject.get (obj : JSObject) (key : String) : Option JSVal :=
  ownLookup obj.own key

/-- Own property names of an object, as `Object.keys` lists them. -/
def JSObject.keys (obj : JSObject) : List String :=
  obj.own.map Prod.fst

/-! ## Data model -/

/-- The `queryData` section of a data provider configuration. -/
structure QueryData where
  queryName : String
  queryValues : List (String × JSVal)
  deriving DecidableEq, Repr

/-- The provider configuration of `widgetConf.json`: its `queryData` section
and, uninterpreted, everything else. -/
structure ProviderConfig where
  settings : String
  queryData : QueryData
  deriving DecidableEq, Repr

/-- The properties the host passes to the widget. -/
structure Props where
  id : String
  widgetID : String
  width : JSVal
  height : JSVal
  deriving DecidableEq, Repr

/-- The enumeration members of `AppAndAPIErrorTable/src/Constants` that the
constructor reads. -/
structure Constants where
  viewTypeAPI : JSVal
  valueFormatTypePERCENT : JSVal
  drillDownAPI : JSVal
  deriving DecidableEq, Repr

/-- The component state. The fields after `operationList` are not set by the
constructor: they are `undefined` / `none` until a method sets them. -/
structure State where
  width : JSVal
  height : JSVal
  localeMessages : Option String
  viewType : JSVal
  valueFormatType : JSVal
  drillDownType : JSVal
  selectedAPI : JSVal
  selectedApp : Int
  selectedVersion : Int
  selectedResource : Int
  selectedLimit : JSVal
  data : List JSObject
  apiList : List (List JSVal)
  appList : List (List JSVal)
  versionList : List (List JSVal)
  operationList : List (List JSVal)
  providerConfig : Option ProviderConfig
  faultyProviderConfig : Option Bool
  timeFrom : JSVal
  timeTo : JSVal
  perValue : JSVal
  loading : Option Bool
  deriving DecidableEq, Repr

/-- The callbacks handed to the channel manager. -/
inductive Handler where
  | handleLoadApps
  | handleLoadApis
  | handleLoadVersions
  | handleLoadOperations
  | handleQueryResults
  deriving DecidableEq, Repr

/-- Calls on the widget channel manager. -/
inductive Effect where
  | unsubscribeWidget (id : String)
  | subscribeWidget (id : String) (widgetName : String) (handler : Handler)
      (dataProviderConfigs : ProviderConfig)
  deriving DecidableEq, Repr

/-- What a method run leaves behind. -/
structure Outcome where
  state : State
  effects : List Effect
  error : Option JSError
  deriving DecidableEq, Repr

/-- A message delivered on a channel. -/
structure Message where
  data : List (List JSVal)
  names : List String
  deriving DecidableEq, Repr

/-- The message of the publisher (date range picker): its properties `from`,
`to` and `granularity`. -/
structure PublisherMessage where
  fromValue : JSVal
  toValue : JSVal
  granularity : JSVal
  deriving DecidableEq, Repr

/-- A run that does nothing. -/
def Outcome.done (s : State) : Outcome :=
  { state := s, effects := [], error := none }

/-- A run that throws at once. -/
def Outcome.throw (s : State) (e : JSError) : Outcome :=
  { state := s, effects := [], error := some e }

/-- Sequencing of statements: the second runs only if the first did not throw. -/
def Outcome.andThen (o : Outcome) (next : State → Outcome) : Outcome :=
  match o.error with
  | some _ => o
  | none =>
    let o2 := next o.state
    { state := o2.state, effects := o.effects ++ o2.effects, error := o2.error }

/-- An event handler that calls `this.setState(update, callback)` and then runs
`body`: React queues the update while the handler runs, so `body` still sees the
old state; the update is applied and the callback run once the handler has
finished, also when `body` threw. -/
def setStateThen (s : State) (update : State → State) (callback : State → Outcome)
    (body : State → Outcome) : Outcome :=
  let b := body s
  let c := callback (update b.state)
  { state := c.state, effects := b.effects ++ c.effects, error := b.error <|> c.error }

/-- The state the constructor creates. -/
def constructor (props : Props) (c : Constants) : State :=
  { width := props.width
    height := props.height
    localeMessages := none
    viewType := c.viewTypeAPI
    valueFormatType := c.valueFormatTypePERCENT
    drillDownType := c.drillDownAPI
    selectedAPI := JSVal.num (-1)
    selectedApp := -1
    selectedVersion := -1
    selectedResource := -1
    selectedLimit := JSVal.num 5
    data := []
    apiList := []
    appList := []
    versionList := []
    operationList := []
    providerConfig := none
    faultyProviderConfig := none
    timeFrom := JSVal.undefined
    timeTo := JSVal.undefined
    perValue := JSVal.undefined
    loading := none }

/-! ## Loading the option lists -/

/-- The deep copy of the provider configuration with `queryData.queryName`
set; reading `.configs` of an `undefined` configuration throws. -/
def withQueryName (providerConfig : Option ProviderConfig) (queryName : String) :
    Except JSError ProviderConfig :=
  match providerConfig with
  | none => .error JSError.typeError
  | some cfg => .ok { cfg with queryData := { cfg.queryData with queryName := queryName } }

/-- The method `loadApps`. -/
def loadApps (props : Props) (s : State) : Outcome :=
  match withQueryName s.providerConfig "listAppsQuery" with
  | .error e => Outcome.throw s e
  | .ok dataProviderConfigs =>
    { state := s
      effects := [Effect.subscribeWidget (props.id ++ "_loadApps") props.widgetID
        Handler.handleLoadApps dataProviderConfigs]
      error := none }

/-- The method `loadVersions`. -/
def loadVersions (props : Props) (s : State) (selectedAPI : JSVal) : Outcome :=
  match withQueryName s.providerConfig "listVersionsQuery" with
  | .error e => Outcome.throw s e
  | .ok dataProviderConfigs =>
    { state := s
      effects := [Effect.subscribeWidget (props.id ++ "_loadVersions") props.widgetID
        Handler.handleLoadVersions
        { dataProviderConfigs with
          queryData := { dataProviderConfigs.queryData with
            queryValues := [("\x7b\x7bselectedAPI\x7d\x7d", selectedAPI)] } }]
      error := none }

/-- The method `loadOperations`. -/
def loadOperations (props : Props) (s : State) (selectedVersion : JSVal) : Outcome :=
  match withQueryName s.providerConfig "listOperationsQuery" with
  | .error e => Outcome.throw s e
  | .ok dataProviderConfigs =>
    { state := s
      effects := [Effect.subscribeWidget (props.id ++ "_loadOperations") props.widgetID
        Handler.handleLoadOperations
        { dataProviderConfigs with
          queryData := { dataProviderConfigs.queryData with
            queryValues := [("\x7b\x7bselectedVersion\x7d\x7d", selectedVersion)] } }]
      error := none }

/-- The method `handleLoadApps`. -/
def handleLoadApps (s : State) (message : Message) : Outcome :=
  Outcome.done { s with appList := message.data }

/-- The method `handleLoadApis`. -/
def handleLoadApis (s : State) (message : Message) : Outcome :=
  Outcome.done { s with apiList := message.data }

/-- The method `handleLoadVersions`. -/
def handleLoadVersions (s : State) (message : Message) : Outcome :=
  Outcome.done { s with versionList := message.data }

/-- The method `handleLoadOperations`. -/
def handleLoadOperations (s : State) (message : Message) : Outcome :=
  Outcome.done { s with operationList := message.data }

/-! ## The data query -/

/-- The `queryValues` object literal of `assembleFetchDataQuery`. -/
def drillDownQueryValues (s : State) (selectPhase groupByPhase filterPhase : List String) :
    List (String × JSVal) :=
  [ ("\x7b\x7bfrom\x7d\x7d", s.timeFrom),
    ("\x7b\x7bto\x7d\x7d", s.timeTo),
    ("\x7b\x7bper\x7d\x7d", s.perValue),
    ("\x7b\x7blimit\x7d\x7d", s.selectedLimit),
    ("\x7b\x7bselectPhase\x7d\x7d", JSVal.str (join selectPhase ",")),
    ("\x7b\x7bgroupByPhase\x7d\x7d", JSVal.str ("group by " ++ join groupByPhase ",")),
    ("\x7b\x7bquerystring\x7d\x7d",
      JSVal.str (if filterPhase.length > 0 then "on " ++ join filterPhase " AND " else "")),
    ("\x7b\x7borderBy\x7d\x7d", JSVal.str "order by AGG_TIMESTAMP asc") ]

/-- The method `assembleFetchDataQuery`. -/
def assembleFetchDataQuery (props : Props) (s : State)
    (selectPhase groupByPhase filterPhase : List String) : Outcome :=
  let s1 := { s with loading := some true }
  match withQueryName s.providerConfig "drillDownQuery" with
  | .error e =>
    { state := s1, effects := [Effect.unsubscribeWidget props.id], error := some e }
  | .ok dataProviderConfigs =>
    { state := s1
      effects :=
        [ Effect.unsubscribeWidget props.id,
          Effect.subscribeWidget props.id props.widgetID Handler.handleQueryResults
            { dataProviderConfigs with
              queryData := { dataProviderConfigs.queryData with
                queryValues := drillDownQueryValues s selectPhase groupByPhase filterPhase } } ]
      error := none }

/-- Property name that `names[j]` denotes as a key: `undefined` past the end. -/
def nameAt (names : List String) (j : Nat) : String :=
  (names.get? j).getD "undefined"

/-- The body of the `data.map` callback of `handleQueryResults`: the loop
`for (let j = 0; j < row.length; j++) obj[names[j]] = row[j]`. -/
def rowToObject (names : List String) (row : List JSVal) : JSObject :=
  (List.range row.length).foldl
    (fun obj j => JSObject.set obj (nameAt names j) (cell row j)) JSObject.empty

/-- The method `handleQueryResults`. -/
def handleQueryResults (s : State) (message : Message) : Outcome :=
  let newData := message.data.map (rowToObject message.names)
  if message.data.length ≠ 0 then
    Outcome.done { s with data := newData, loading := some false }
  else
    Outcome.done { s with data := [], loading := some false }

/-- First block of `getQueryForAPI`: the API name predicate. -/
def pushApiFilter (s : State) (filterPhase : List String) : List String :=
  if s.selectedAPI ≠ JSVal.num (-1) then
    filterPhase ++ ["apiName==\x27" ++ s.selectedAPI.toJSString ++ "\x27"]
  else filterPhase

/-- Second block of `getQueryForAPI`: the API version predicate. -/
def pushVersionFilter (s : State) (filterPhase : List String) : Except JSError (List String) :=
  if s.selectedVersion ≠ -1 then
    match jsIndex s.versionList s.selectedVersion with
    | none => .error JSError.typeError
    | some entry =>
      let ver := cell entry 1
      .ok (filterPhase ++ ["apiVersion==\x27" ++ ver.toJSString ++ "\x27"])
  else .ok filterPhase

/-- Third block of `getQueryForAPI`: resource template and method predicates. -/
def pushResourceFilter (s : State) (filterPhase : List String) : Except JSError (List String) :=
  if s.selectedResource > -1 then
    match jsIndex s.operationList s.selectedResource with
    | none => .error JSError.typeError
    | some entry =>
      let template := cell entry 0
      let verb := cell entry 1
      .ok (filterPhase ++ ["apiResourceTemplate==\x27" ++ template.toJSString ++ "\x27"]
        ++ ["apiMethod==\x27" ++ verb.toJSString ++ "\x27"])
  else .ok filterPhase

/-- Fourth block of `getQueryForAPI`: application name and owner predicates. -/
def pushAppFilter (s : State) (filterPhase : List String) : Except JSError (List String) :=
  if s.selectedApp ≠ -1 then
    match jsIndex s.appList s.selectedApp with
    | none => .error JSError.typeError
    | some entry =>
      let appName := cell entry 0
      let appOwner := cell entry 1
      .ok (filterPhase ++ ["applicationName==\x27" ++ appName.toJSString ++ "\x27"]
        ++ ["applicationOwner==\x27" ++ appOwner.toJSString ++ "\x27"])
  else .ok filterPhase

/-- The array `filterPhase` as `getQueryForAPI` has it when it reaches the call
of `assembleFetchDataQuery`, or the exception thrown on the way. -/
def filterPhase (s : State) : Except JSError (List String) :=
  pushVersionFilter s (pushApiFilter s []) >>= pushResourceFilter s >>= pushAppFilter s

/-- The array `selectPhase` of `getQueryForAPI`. -/
def selectPhase : List String :=
  [ "AGG_TIMESTAMP", "sum(_4xx) as _4xx", "sum(_5xx) as _5xx",
    "sum(successCount) as successCount",
    "sum(faultCount) as faultCount", "sum(throttledCount) as throttledCount" ]

/-- The array `groupByPhase` of `getQueryForAPI`. -/
def groupByPhase : List String :=
  ["AGG_TIMESTAMP"]

/-- The method `getQueryForAPI`. -/
def getQueryForAPI (props : Props) (s : State) : Outcome :=
  match filterPhase s with
  | .error e => Outcome.throw s e
  | .ok filter => assembleFetchDataQuery props s selectPhase groupByPhase filter

/-- The method `loadingDrillDownData`. -/
def loadingDrillDownData (props : Props) (s : State) : Outcome :=
  getQueryForAPI props s

/-- The method `loadApis`. -/
def loadApis (props : Props) (s : State) : Outcome :=
  ((loadingDrillDownData props s).andThen (loadApps props)).andThen fun s1 =>
    match withQueryName s1.providerConfig "listApisQuery" with
    | .error e => Outcome.throw s1 e
    | .ok dataProviderConfigs =>
      { state := s1
        effects := [Effect.subscribeWidget (props.id ++ "_loadApis") props.widgetID
          Handler.handleLoadApis dataProviderConfigs]
        error := none }

/-- The method `handlePublisherParameters`. -/
def handlePublisherParameters (props : Props) (s : State) (receivedMsg : PublisherMessage) :
    Outcome :=
  setStateThen s
    (fun st => { st with
      timeFrom := receivedMsg.fromValue
      timeTo := receivedMsg.toValue
      perValue := receivedMsg.granularity })
    (loadApis props) Outcome.done

/-! ## Selection handlers -/

/-- The method `handleApplicationChange`; `value` is `event.target.value`. -/
def handleApplicationChange (props : Props) (s : State) (value : Int) : Outcome :=
  setStateThen s (fun st => { st with selectedApp := value })
    (loadingDrillDownData props) Outcome.done

/-- The method `handleAPIChange`; `value` is `event.target.value`. -/
def handleAPIChange (props : Props) (s : State) (value : JSVal) : Outcome :=
  setStateThen s (fun st => { st with selectedAPI := value })
    (loadingDrillDownData props) (fun st => loadVersions props st value)

/-- The method `handleVersionChange`; `value` is `event.target.value`. -/
def handleVersionChange (props : Props) (s : State) (value : Int) : Outcome :=
  setStateThen s (fun st => { st with selectedVersion := value })
    (loadingDrillDownData props) (fun st =>
      match jsIndex st.versionList value with
      | none => Outcome.throw st JSError.typeError
      | some api => loadOperations props st (cell api 0))

/-- The method `handleOperationChange`; `value` is `event.target.value`. -/
def handleOperationChange (props : Props) (s : State) (value : Int) : Outcome :=
  setStateThen s (fun st => { st with selectedResource := value })
    (loadingDrillDownData props) Outcome.done

/-- The method `handleLimitChange`; `value` is `event.target.value`. -/
def handleLimitChange (props : Props) (s : State) (value : JSVal) : Outcome :=
  setStateThen s (fun st => { st with selectedLimit := value })
    (loadingDrillDownData props) Outcome.done

/-! ## Vocabulary of the specification -/

/-- An index selection is valid for its option list: unselected (`-1`) or the
index of an entry. -/
def validIndex (i : Int) (options : List (List JSVal)) : Prop :=
  i = -1 ∨ (0 ≤ i ∧ i < options.length)

instance (i : Int) (options : List (List JSVal)) : Decidable (validIndex i options) := by
  unfold validIndex; infer_instance

/-- The three index selections of a state are valid. -/
def ValidIndices (s : State) : Prop :=
  validIndex s.selectedVersion s.versionList ∧
  validIndex s.selectedResource s.operationList ∧
  validIndex s.selectedApp s.appList

instance (s : State) : Decidable (ValidIndices s) := by
  unfold ValidIndices; infer_instance

/-- Component `j` of the entry `options[i]`, the specification's
`options[i][j]`. -/
def entryCell (options : List (List JSVal)) (i : Int) (j : Nat) : JSVal :=
  cell ((jsIndex options i).getD []) j

/-- The equality predicate the specification writes `field=='value'`. -/
def predicate (field : String) (value : String) : String :=
  field ++ "==\x27" ++ value ++ "\x27"

/-- The filter predicates as the specification of `buildQuerySpec` lists them:
API name, API version, resource template and method, application name and
owner, each present when its selection is. -/
def specFilterPredicates (s : State) : List String :=
  (if s.selectedAPI = JSVal.num (-1) then []
    else [predicate "apiName" s.selectedAPI.toJSString]) ++
  (if s.selectedVersion = -1 then []
    else [predicate "apiVersion" (entryCell s.versionList s.selectedVersion 1).toJSString]) ++
  (if s.selectedResource = -1 then []
    else [predicate "apiResourceTemplate"
            (entryCell s.operationList s.selectedResource 0).toJSString,
          predicate "apiMethod" (entryCell s.operationList s.selectedResource 1).toJSString]) ++
  (if s.selectedApp = -1 then []
    else [predicate "applicationName" (entryCell s.appList s.selectedApp 0).toJSString,
          predicate "applicationOwner" (entryCell s.appList s.selectedApp 1).toJSString])

/-- A call of one of the four selection handlers. -/
inductive Selection where
  | api (value : JSVal)
  | version (value : Int)
  | operation (value : Int)
  | application (value : Int)
  deriving DecidableEq, Repr

/-- Which selection a call changes: 0 API, 1 version, 2 operation, 3 application. -/
def Selection.kind : Selection → Nat
  | .api _ => 0
  | .version _ => 1
  | .operation _ => 2
  | .application _ => 3

/-- Runs the handler of a selection call. -/
def select (props : Props) (s : State) : Selection → Outcome
  | .api value => handleAPIChange props s value
  | .version value => handleVersionChange props s value
  | .operation value => handleOperationChange props s value
  | .application value => handleApplicationChange props s value

/-- The selection a call writes into the state. -/
def Selection.update (call : Selection) (s : State) : State :=
  match call with
  | .api value => { s with selectedAPI := value }
  | .version value => { s with selectedVersion := value }
  | .operation value => { s with selectedResource := value }
  | .application value => { s with selectedApp := value }

/-- The state after a sequence of selection calls, in list order. -/
def selectAll (props : Props) (s : State) (calls : List Selection) : State :=
  calls.foldl (fun st call => (select props st call).state) s

/-- Two states hold the same selections and the same option lists. -/
def sameFilterInputs (s t : State) : Prop :=
  s.selectedAPI = t.selectedAPI ∧ s.selectedVersion = t.selectedVersion ∧
  s.selectedResource = t.selectedResource ∧ s.selectedApp = t.selectedApp ∧
  s.versionList = t.versionList ∧ s.operationList = t.operationList ∧
  s.appList = t.appList

/-- The configuration of the first subscription a run made for the drill-down
data (callback `handleQueryResults`), if it made one. -/
def dataQuery (o : Outcome) : Option ProviderConfig :=
  o.effects.findSome? fun
    | .subscribeWidget _ _ Handler.handleQueryResults cfg => some cfg
    | _ => none

/-- The value a query configuration gives to a placeholder. -/
def queryValue (cfg : ProviderConfig) (placeholder : String) : Option JSVal :=
  cfg.queryData.queryValues.lookup placeholder

/-- The six fields the drill-down query is filtered on. -/
def fieldNames : List String :=
  [ "apiName", "apiVersion", "apiResourceTemplate", "apiMethod",
    "applicationName", "applicationOwner" ]

/-- A predicate string is a predicate on `field`: it starts with `field==` and
an opening quote. -/
def onField (field : String) (p : String) : Prop :=
  (field ++ "==\x27").data <+: p.data

instance (field p : String) : Decidable (onField field p) := by
  unfold onField; infer_instance

/-- The filter clause the specification describes: nothing for no predicate,
else `on` and the predicates in their order with ` AND ` between them. -/
def specQueryString : List String → String
  | [] => ""
  | p :: rest => rest.foldl (fun clause q => clause ++ " AND " ++ q) ("on " ++ p)

/-- A query configuration with the value of its limit placeholder replaced by
`limit`, everything else as it is. -/
def setLimit (limit : JSVal) (cfg : ProviderConfig) : ProviderConfig :=
  { cfg with
    queryData := { cfg.queryData with
      queryValues := cfg.queryData.queryValues.map fun kv =>
        if kv.1 = "\x7b\x7blimit\x7d\x7d" then (kv.1, limit) else kv } }

/-- A channel call with the limit of its query replaced by `limit`. -/
def withLimit (limit : JSVal) : Effect → Effect
  | .unsubscribeWidget id => .unsubscribeWidget id
  | .subscribeWidget id widgetName handler cfg =>
    .subscribeWidget id widgetName handler (setLimit limit cfg)

/-- A value is a non-negative integer number. -/
def isNonNegativeInteger : JSVal → Prop
  | .num n => 0 ≤ n
  | _ => False

instance (v : JSVal) : Decidable (isNonNegativeInteger v) := by
  cases v <;> unfold isNonNegativeInteger <;> infer_instance

/-! ## Sample states -/

/-- A provider configuration. -/
def sampleConfig : ProviderConfig :=
  { settings := "RDBMSStreamingDataProvider"
    queryData := { queryName := "", queryValues := [] } }

/-- Widget properties. -/
def sampleProps : Props :=
  { id := "w1", widgetID := "AppAndAPIErrorsByTime"
    width := JSVal.num 800, height := JSVal.num 600 }

/-- Enumeration constants. -/
def sampleConstants : Constants :=
  { viewTypeAPI := JSVal.str "api"
    valueFormatTypePERCENT := JSVal.str "percent"
    drillDownAPI := JSVal.str "api" }

/-- A state after configuration and option lists have arrived, nothing selected. -/
def loadedState : State :=
  { constructor sampleProps sampleConstants with
    providerConfig := some sampleConfig
    timeFrom := JSVal.num 1000
    timeTo := JSVal.num 2000
    perValue := JSVal.str "minute"
    apiList := [[JSVal.str "PizzaShack"], [JSVal.str "Petstore"]]
    versionList := [[JSVal.str "PizzaShack", JSVal.str "1.0.0"],
                    [JSVal.str "PizzaShack", JSVal.str "2.0.0"]]
    operationList := [[JSVal.str "/menu", JSVal.str "GET"], [JSVal.str "/order", JSVal.str "POST"]]
    appList := [[JSVal.str "DefaultApplication", JSVal.str "admin"]] }

/-- The loaded state with all four selections made. -/
def fullySelectedState : State :=
  { loadedState with
    selectedAPI := JSVal.str "PizzaShack"
    selectedVersion := 1
    selectedResource := 0
    selectedApp := 0 }

/-! ## Vocabulary of the claims on results, query inputs and traces -/

/-- The query values of the data query a run issued, if it issued one. -/
def issuedQueryValues (o : Outcome) : Option (List (String × JSVal)) :=
  (dataQuery o).map fun q => q.queryData.queryValues

/-- Two states agree on the four selections, the limit and the time window. -/
def sameSelectionsAndWindow (s t : State) : Prop :=
  s.selectedAPI = t.selectedAPI ∧ s.selectedVersion = t.selectedVersion ∧
  s.selectedResource = t.selectedResource ∧ s.selectedApp = t.selectedApp ∧
  s.selectedLimit = t.selectedLimit ∧ s.timeFrom = t.timeFrom ∧ s.timeTo = t.timeTo ∧
  s.perValue = t.perValue

instance (s t : State) : Decidable (sameSelectionsAndWindow s t) := by
  unfold sameSelectionsAndWindow; infer_instance

/-- Two states hold the same version, operation and application lists. -/
def sameOptionLists (s t : State) : Prop :=
  s.versionList = t.versionList ∧ s.operationList = t.operationList ∧ s.appList = t.appList

instance (s t : State) : Decidable (sameOptionLists s t) := by
  unfold sameOptionLists; infer_instance

/-- Within one handler run, every subscription of `channel` comes after an
unsubscription of `channel` made since the channel was last subscribed;
`released` tells whether such an unsubscription has been seen. -/
def releasedBeforeSubscribeOn (channel : String) : Bool → List Effect → Bool
  | _, [] => true
  | released, .unsubscribeWidget id :: rest =>
    releasedBeforeSubscribeOn channel (released || decide (id = channel)) rest
  | released, .subscribeWidget id _ _ _ :: rest =>
    if id = channel then released && releasedBeforeSubscribeOn channel false rest
    else releasedBeforeSubscribeOn channel released rest

/-- The index `i` is the index of an entry of `options` that has at least two
components. -/
def validEntryIndex (i : Int) (options : List (List JSVal)) : Prop :=
  0 ≤ i ∧ i < options.length ∧ 2 ≤ (options.getD i.toNat []).length

instance (i : Int) (options : List (List JSVal)) : Decidable (validEntryIndex i options) := by
  unfold validEntryIndex; infer_instance

/-- The precondition on the index selections: the version and the application
selection are `-1` or index an entry, the operation selection is at most `-1` or
indexes an entry, and an indexed entry has at least two components. -/
def IndexValidity (s : State) : Prop :=
  (s.selectedVersion = -1 ∨ validEntryIndex s.selectedVersion s.versionList) ∧
  (s.selectedResource ≤ -1 ∨ validEntryIndex s.selectedResource s.operationList) ∧
  (s.selectedApp = -1 ∨ validEntryIndex s.selectedApp s.appList)

instance (s : State) : Decidable (IndexValidity s) := by
  unfold IndexValidity; infer_instance

/-- The reads `options[i][0]` and `options[i][1]` find an entry and its
components. -/
def lookupInRange (options : List (List JSVal)) (i : Int) : Prop :=
  ∃ entry, jsIndex options i = some entry ∧
    ∃ c0 c1, entry.get? 0 = some c0 ∧ entry.get? 1 = some c1

/-- Every option list read that `getQueryForAPI` performs in a state, each
under the guard the method puts before it, is in range. -/
def lookupsInRange (s : State) : Prop :=
  (s.selectedVersion ≠ -1 → lookupInRange s.versionList s.selectedVersion) ∧
  (s.selectedResource > -1 → lookupInRange s.operationList s.selectedResource) ∧
  (s.selectedApp ≠ -1 → lookupInRange s.appList s.selectedApp)

/-- The steps of the widget after construction: the `then` and `catch` branches
of `componentDidMount`, the publisher message, the five selection handlers and
the five data-arrival handlers. -/
inductive WidgetEvent where
  | configurationLoaded (providerConfig : ProviderConfig)
  | configurationFailed
  | publisherParameters (receivedMsg : PublisherMessage)
  | apiChange (value : JSVal)
  | versionChange (value : Int)
  | operationChange (value : Int)
  | applicationChange (value : Int)
  | limitChange (value : JSVal)
  | loadApis (message : Message)
  | loadApps (message : Message)
  | loadVersions (message : Message)
  | loadOperations (message : Message)
  | queryResults (message : Message)
  deriving DecidableEq, Repr

/-- Runs the method a step stands for. The two `componentDidMount` branches
are `setState` calls (the subscription to the publisher is not a channel
call). -/
def WidgetEvent.run (props : Props) (s : State) : WidgetEvent → Outcome
  | .configurationLoaded providerConfig =>
    Outcome.done { s with providerConfig := some providerConfig }
  | .configurationFailed => Outcome.done { s with faultyProviderConfig := some true }
  | .publisherParameters receivedMsg => handlePublisherParameters props s receivedMsg
  | .apiChange value => handleAPIChange props s value
  | .versionChange value => handleVersionChange props s value
  | .operationChange value => handleOperationChange props s value
  | .applicationChange value => handleApplicationChange props s value
  | .limitChange value => handleLimitChange props s value
  | .loadApis message => handleLoadApis s message
  | .loadApps message => handleLoadApps s message
  | .loadVersions message => handleLoadVersions s message
  | .loadOperations message => handleLoadOperations s message
  | .queryResults message => handleQueryResults s message

/-- The condition under which a step is taken: an index selection handler is
called with `-1` or a valid index of the list the state holds; every other
step is free. -/
def WidgetEvent.allowed (s : State) : WidgetEvent → Prop
  | .versionChange value => validIndex value s.versionList
  | .operationChange value => validIndex value s.operationList
  | .applicationChange value => validIndex value s.appList
  | _ => True

instance (s : State) (e : WidgetEvent) : Decidable (e.allowed s) := by
  cases e <;> unfold WidgetEvent.allowed <;> infer_instance

/-- A delivered option list keeps the selection stored for it valid: the
selection is `-1` or an index of the delivered list. -/
def WidgetEvent.keepsSelection (s : State) : WidgetEvent → Prop
  | .loadApps message => validIndex s.selectedApp message.data
  | .loadVersions message => validIndex s.selectedVersion message.data
  | .loadOperations message => validIndex s.selectedResource message.data
  | _ => True

instance (s : State) (e : WidgetEvent) : Decidable (e.keepsSelection s) := by
  cases e <;> unfold WidgetEvent.keepsSelection <;> infer_instance

/-- The state after a sequence of steps. -/
def runEvents (props : Props) (s : State) (events : List WidgetEvent) : State :=
  events.foldl (fun st e => (e.run props st).state) s

/-- Every step of the sequence is allowed in the state it is taken in. -/
def allowedTrace (props : Props) : State → List WidgetEvent → Prop
  | _, [] => True
  | s, e :: rest => e.allowed s ∧ allowedTrace props (e.run props s).state rest

instance (props : Props) (s : State) (events : List WidgetEvent) :
    Decidable (allowedTrace props s events) := by
  induction events generalizing s with
  | nil => unfold allowedTrace; infer_instance
  | cons e rest ih => unfold allowedTrace; exact instDecidableAnd

/-- Every step of the sequence is allowed and, when it delivers an option list,
keeps the stored selection valid. -/
def keepingTrace (props : Props) : State → List WidgetEvent → Prop
  | _, [] => True
  | s, e :: rest =>
    e.allowed s ∧ e.keepsSelection s ∧ keepingTrace props (e.run props s).state rest

instance (props : Props) (s : State) (events : List WidgetEvent) :
    Decidable (keepingTrace props s events) := by
  induction events generalizing s with
  | nil => unfold keepingTrace; infer_instance
  | cons e rest ih => unfold keepingTrace; exact instDecidableAnd

/-! ## Sample messages and traces -/

/-- A delivery of two versions. -/
def twoVersions : Message :=
  { data := [[JSVal.str "PizzaShack", JSVal.str "1.0.0"],
             [JSVal.str "PizzaShack", JSVal.str "2.0.0"]]
    names := ["API_NAME", "API_VERSION"] }

/-- A delivery of one version. -/
def oneVersion : Message :=
  { data := [[JSVal.str "Petstore", JSVal.str "1.0.0"]]
    names := ["API_NAME", "API_VERSION"] }

/-- A delivery of two operations. -/
def twoOperations : Message :=
  { data := [[JSVal.str "/menu", JSVal.str "GET"], [JSVal.str "/order", JSVal.str "POST"]]
    names := ["URL_PATTERN", "HTTP_METHOD"] }

/-- A delivery of one operation. -/
def oneOperation : Message :=
  { data := [[JSVal.str "/pet", JSVal.str "GET"]]
    names := ["URL_PATTERN", "HTTP_METHOD"] }

/-- A delivery of two applications. -/
def twoApps : Message :=
  { data := [[JSVal.str "DefaultApplication", JSVal.str "admin"],
             [JSVal.str "Mobile", JSVal.str "alice"]]
    names := ["NAME", "CREATED_BY"] }

/-- A delivery of one application. -/
def oneApp : Message :=
  { data := [[JSVal.str "DefaultApplication", JSVal.str "admin"]]
    names := ["NAME", "CREATED_BY"] }

/-- A session: the configuration loads, the lists arrive, the last version,
operation and application are selected. -/
def selectingTrace : List WidgetEvent :=
  [ WidgetEvent.configurationLoaded sampleConfig,
    WidgetEvent.loadApps twoApps,
    WidgetEvent.apiChange (JSVal.str "PizzaShack"),
    WidgetEvent.loadVersions twoVersions,
    WidgetEvent.versionChange 1,
    WidgetEvent.loadOperations twoOperations,
    WidgetEvent.operationChange 1,
    WidgetEvent.applicationChange 1 ]

/-- The session continued: another API is selected and shorter lists arrive. -/
def shrinkingTrace : List WidgetEvent :=
  selectingTrace ++
  [ WidgetEvent.apiChange (JSVal.str "Petstore"),
    WidgetEvent.loadVersions oneVersion,
    WidgetEvent.loadOperations oneOperation,
    WidgetEvent.loadApps oneApp ]

/-- Only handlers of the two lists of the claim, from the constructed state:
a version list arrives, its last version is selected, a shorter list arrives. -/
def shortShrinkingTrace : List WidgetEvent :=
  [ WidgetEvent.loadVersions twoVersions,
    WidgetEvent.versionChange 1,
    WidgetEvent.loadVersions oneVersion ]

/-- The object `obj` of `handleQueryResults` after the first `n` rounds of the
loop over a row. -/
def loopPrefix (names : List String) (row : List JSVal) (n : Nat) : JSObject :=
  (List.range n).foldl (fun obj j => JSObject.set obj (nameAt names j) (cell row j))
    JSObject.empty

/-- The loaded state with the second version selected. -/
def versionSelectedState : State :=
  { loadedState with selectedVersion := 1 }

/-- The same state with another second entry in its version list. -/
def otherVersionsState : State :=
  { versionSelectedState with
    versionList := [[JSVal.str "PizzaShack", JSVal.str "1.0.0"],
                    [JSVal.str "PizzaShack", JSVal.str "3.0.0"]] }

/-- The filter clause of the data query a run issued, if it issued one. -/
def issuedFilterClause (o : Outcome) : Option JSVal :=
  (issuedQueryValues o).bind fun values => values.lookup "\x7b\x7bquerystring\x7d\x7d"

/-- The fully selected state with other rows, flags, size and API list. -/
def otherDisplayState : State :=
  { fullySelectedState with
    width := JSVal.num 1024
    data := [{ own := [("AGG_TIMESTAMP", JSVal.num 1000)], hasPrototype := true }]
    loading := some false
    apiList := []
    localeMessages := some "en" }

/-- The kind of a channel call and its channel, without the other arguments. -/
def Effect.summary : Effect → String × String
  | .unsubscribeWidget id => ("unsubscribe", id)
  | .subscribeWidget id _ _ _ => ("subscribe", id)

/-! ## Lemmas on the filter blocks -/

theorem jsIndex_of_inRange {α : Type} (xs : List α) (i : Int) (h0 : 0 ≤ i)
    (h1 : i < xs.length) : ∃ e, jsIndex xs i = some e := by
  have h2 : i.toNat < xs.length := by omega
  refine ⟨xs.get ⟨i.toNat, h2⟩, ?_⟩
  simp [jsIndex, h0, List.get?_eq_get h2]

theorem pushApiFilter_eq (s : State) (acc : List String) :
    pushApiFilter s acc = acc ++
      (if s.selectedAPI = JSVal.num (-1) then []
        else [predicate "apiName" s.selectedAPI.toJSString]) := by
  unfold pushApiFilter predicate
  by_cases h : s.selectedAPI = JSVal.num (-1) <;> simp [h]

theorem pushVersionFilter_valid (s : State) (acc : List String)
    (h : validIndex s.selectedVersion s.versionList) :
    pushVersionFilter s acc = .ok (acc ++
      (if s.selectedVersion = -1 then []
        else [predicate "apiVersion"
          (entryCell s.versionList s.selectedVersion 1).toJSString])) := by
  unfold pushVersionFilter predicate entryCell
  rcases h with h | ⟨h0, h1⟩
  · simp [h]
  · obtain ⟨e, he⟩ := jsIndex_of_inRange _ _ h0 h1
    have hne : s.selectedVersion ≠ -1 := by omega
    simp [he, hne]

theorem pushResourceFilter_valid (s : State) (acc : List String)
    (h : validIndex s.selectedResource s.operationList) :
    pushResourceFilter s acc = .ok (acc ++
      (if s.selectedResource = -1 then []
        else [predicate "apiResourceTemplate"
                (entryCell s.operationList s.selectedResource 0).toJSString,
              predicate "apiMethod"
                (entryCell s.operationList s.selectedResource 1).toJSString])) := by
  unfold pushResourceFilter predicate entryCell
  rcases h with h | ⟨h0, h1⟩
  · simp [h]
  · obtain ⟨e, he⟩ := jsIndex_of_inRange _ _ h0 h1
    have hne : s.selectedResource ≠ -1 := by omega
    have hgt : s.selectedResource > -1 := by omega
    simp [he, hne, hgt]

theorem pushAppFilter_valid (s : State) (acc : List String)
    (h : validIndex s.selectedApp s.appList) :
    pushAppFilter s acc = .ok (acc ++
      (if s.selectedApp = -1 then []
        else [predicate "applicationName" (entryCell s.appList s.selectedApp 0).toJSString,
              predicate "applicationOwner"
                (entryCell s.appList s.selectedApp 1).toJSString])) := by
  unfold pushAppFilter predicate entryCell
  rcases h with h | ⟨h0, h1⟩
  · simp [h]
  · obtain ⟨e, he⟩ := jsIndex_of_inRange _ _ h0 h1
    have hne : s.selectedApp ≠ -1 := by omega
    simp [he, hne]

theorem filterPhase_of_valid (s : State) (h : ValidIndices s) :
    filterPhase s = .ok (specFilterPredicates s) := by
  obtain ⟨hv, hr, ha⟩ := h
  unfold filterPhase specFilterPredicates
  rw [pushApiFilter_eq, pushVersionFilter_valid s _ hv]
  show pushResourceFilter s _ >>= pushAppFilter s = _
  rw [pushResourceFilter_valid s _ hr]
  show pushAppFilter s _ = _
  rw [pushAppFilter_valid s _ ha]
  simp

/-! ## Lemmas on the states the handlers leave -/

theorem sameFilterInputs_refl (s : State) : sameFilterInputs s s := by
  simp [sameFilterInputs]

theorem sameFilterInputs_symm {s t : State} (h : sameFilterInputs s t) :
    sameFilterInputs t s := by
  obtain ⟨h1, h2, h3, h4, h5, h6, h7⟩ := h
  exact ⟨h1.symm, h2.symm, h3.symm, h4.symm, h5.symm, h6.symm, h7.symm⟩

theorem sameFilterInputs_trans {s t u : State} (h : sameFilterInputs s t)
    (k : sameFilterInputs t u) : sameFilterInputs s u := by
  obtain ⟨h1, h2, h3, h4, h5, h6, h7⟩ := h
  obtain ⟨k1, k2, k3, k4, k5, k6, k7⟩ := k
  exact ⟨h1.trans k1, h2.trans k2, h3.trans k3, h4.trans k4, h5.trans k5, h6.trans k6,
    h7.trans k7⟩

theorem filterPhase_congr {s t : State} (h : sameFilterInputs s t) :
    filterPhase s = filterPhase t := by
  obtain ⟨h1, h2, h3, h4, h5, h6, h7⟩ := h
  have e1 : pushApiFilter s = pushApiFilter t := by
    funext acc; simp only [pushApiFilter, h1]
  have e2 : pushVersionFilter s = pushVersionFilter t := by
    funext acc; simp only [pushVersionFilter, h2, h5]
  have e3 : pushResourceFilter s = pushResourceFilter t := by
    funext acc; simp only [pushResourceFilter, h3, h6]
  have e4 : pushAppFilter s = pushAppFilter t := by
    funext acc; simp only [pushAppFilter, h4, h7]
  simp only [filterPhase, e1, e2, e3, e4]

theorem assembleFetchDataQuery_state (props : Props) (s : State) (sel grp fil : List String) :
    (assembleFetchDataQuery props s sel grp fil).state = { s with loading := some true } := by
  unfold assembleFetchDataQuery
  cases withQueryName s.providerConfig "drillDownQuery" <;> rfl

theorem getQueryForAPI_state (props : Props) (s : State) :
    (getQueryForAPI props s).state = s ∨
      (getQueryForAPI props s).state = { s with loading := some true } := by
  unfold getQueryForAPI
  cases filterPhase s with
  | error e => exact Or.inl rfl
  | ok f => exact Or.inr (assembleFetchDataQuery_state props s _ _ f)

theorem getQueryForAPI_same (props : Props) (s : State) :
    sameFilterInputs (getQueryForAPI props s).state s := by
  rcases getQueryForAPI_state props s with h | h <;> rw [h] <;> simp [sameFilterInputs]

theorem loadVersions_state (props : Props) (s : State) (v : JSVal) :
    (loadVersions props s v).state = s := by
  unfold loadVersions
  cases withQueryName s.providerConfig "listVersionsQuery" <;> rfl

theorem loadOperations_state (props : Props) (s : State) (v : JSVal) :
    (loadOperations props s v).state = s := by
  unfold loadOperations
  cases withQueryName s.providerConfig "listOperationsQuery" <;> rfl

theorem setStateThen_state (s : State) (update : State → State)
    (callback body : State → Outcome) (h : (body s).state = s) :
    (setStateThen s update callback body).state = (callback (update s)).state := by
  show (callback (update (body s).state)).state = _
  rw [h]

theorem handleAPIChange_state (props : Props) (s : State) (value : JSVal) :
    (handleAPIChange props s value).state =
      (getQueryForAPI props { s with selectedAPI := value }).state :=
  setStateThen_state s _ _ _ (loadVersions_state props s value)

theorem handleVersionChange_state (props : Props) (s : State) (value : Int) :
    (handleVersionChange props s value).state =
      (getQueryForAPI props { s with selectedVersion := value }).state := by
  refine setStateThen_state s _ _ _ ?_
  show (match jsIndex s.versionList value with
    | none => Outcome.throw s JSError.typeError
    | some api => loadOperations props s (cell api 0)).state = s
  cases jsIndex s.versionList value with
  | none => rfl
  | some api => exact loadOperations_state props s _

theorem handleOperationChange_state (props : Props) (s : State) (value : Int) :
    (handleOperationChange props s value).state =
      (getQueryForAPI props { s with selectedResource := value }).state :=
  setStateThen_state s _ _ _ rfl

theorem handleApplicationChange_state (props : Props) (s : State) (value : Int) :
    (handleApplicationChange props s value).state =
      (getQueryForAPI props { s with selectedApp := value }).state :=
  setStateThen_state s _ _ _ rfl

theorem handleLimitChange_state (props : Props) (s : State) (value : JSVal) :
    (handleLimitChange props s value).state =
      (getQueryForAPI props { s with selectedLimit := value }).state :=
  setStateThen_state s _ _ _ rfl

theorem select_same (props : Props) (s : State) (call : Selection) :
    sameFilterInputs (select props s call).state (call.update s) := by
  cases call with
  | api v => simpa [select, handleAPIChange_state] using getQueryForAPI_same props _
  | version v => simpa [select, handleVersionChange_state] using getQueryForAPI_same props _
  | operation v => simpa [select, handleOperationChange_state] using getQueryForAPI_same props _
  | application v =>
    simpa [select, handleApplicationChange_state] using getQueryForAPI_same props _

theorem update_congr (call : Selection) {s t : State} (h : sameFilterInputs s t) :
    sameFilterInputs (call.update s) (call.update t) := by
  obtain ⟨h1, h2, h3, h4, h5, h6, h7⟩ := h
  cases call <;> simp [Selection.update, sameFilterInputs, *]

theorem update_comm (c d : Selection) (h : c.kind ≠ d.kind) (s : State) :
    sameFilterInputs (d.update (c.update s)) (c.update (d.update s)) := by
  cases c <;> cases d <;> simp [Selection.kind] at h <;>
    simp [Selection.update, sameFilterInputs]

theorem select_congr (props : Props) (call : Selection) {s t : State}
    (h : sameFilterInputs s t) :
    sameFilterInputs (select props s call).state (select props t call).state :=
  sameFilterInputs_trans (select_same props s call)
    (sameFilterInputs_trans (update_congr call h)
      (sameFilterInputs_symm (select_same props t call)))

theorem select_comm (props : Props) (c d : Selection) (h : c.kind ≠ d.kind) {s t : State}
    (hst : sameFilterInputs s t) :
    sameFilterInputs (select props (select props s c).state d).state
      (select props (select props t d).state c).state := by
  have h1 : sameFilterInputs (select props (select props s c).state d).state
      (d.update (c.update s)) :=
    sameFilterInputs_trans (select_same props _ d) (update_congr d (select_same props s c))
  have h2 : sameFilterInputs (select props (select props t d).state c).state
      (c.update (d.update t)) :=
    sameFilterInputs_trans (select_same props _ c) (update_congr c (select_same props t d))
  have h3 : sameFilterInputs (c.update (d.update s)) (c.update (d.update t)) :=
    update_congr c (update_congr d hst)
  exact sameFilterInputs_trans h1
    (sameFilterInputs_trans (update_comm c d h s)
      (sameFilterInputs_trans h3 (sameFilterInputs_symm h2)))

theorem selectAll_congr (props : Props) (calls : List Selection) :
    ∀ {s t : State}, sameFilterInputs s t →
      sameFilterInputs (selectAll props s calls) (selectAll props t calls) := by
  induction calls with
  | nil => intro s t h; simpa [selectAll] using h
  | cons c rest ih =>
    intro s t h
    simpa [selectAll] using ih (select_congr props c h)

theorem selectAll_perm (props : Props) {calls calls' : List Selection}
    (hp : calls.Perm calls') :
    calls.Pairwise (fun c d => c.kind ≠ d.kind) →
    ∀ {s t : State}, sameFilterInputs s t →
      sameFilterInputs (selectAll props s calls) (selectAll props t calls') := by
  induction hp with
  | nil => intro _ s t h; simpa [selectAll] using h
  | cons c _ ih =>
    intro hd s t h
    have hd' := (List.pairwise_cons.1 hd).2
    simpa [selectAll] using ih hd' (select_congr props c h)
  | swap c d rest =>
    intro hd s t h
    have hcd : d.kind ≠ c.kind := (List.pairwise_cons.1 hd).1 c (by simp)
    have := select_comm props d c hcd h
    simpa [selectAll] using selectAll_congr props rest this
  | trans hp1 _ ih1 ih2 =>
    intro hd s t h
    have hd2 := (hp1.pairwise_iff (fun {c d} (h : c.kind ≠ d.kind) => h.symm)).1 hd
    exact sameFilterInputs_trans (ih1 hd (sameFilterInputs_refl s)) (ih2 hd2 h)

/-! ## What the filter blocks can push -/

theorem pushVersionFilter_ok {s : State} {acc x : List String}
    (h : pushVersionFilter s acc = .ok x) :
    (s.selectedVersion = -1 ∧ x = acc) ∨
      (s.selectedVersion ≠ -1 ∧ ∃ v, x = acc ++ [predicate "apiVersion" v]) := by
  unfold pushVersionFilter at h
  by_cases hs : s.selectedVersion = -1
  · left
    simp [hs] at h
    exact ⟨hs, h.symm⟩
  · right
    refine ⟨hs, ?_⟩
    simp only [ne_eq, hs, not_false_eq_true, if_true] at h
    cases he : jsIndex s.versionList s.selectedVersion with
    | none => simp [he] at h
    | some entry =>
      simp only [he, Except.ok.injEq] at h
      exact ⟨(cell entry 1).toJSString, h.symm⟩

theorem pushResourceFilter_ok {s : State} {acc x : List String}
    (h : pushResourceFilter s acc = .ok x) :
    (¬ s.selectedResource > -1 ∧ x = acc) ∨
      (s.selectedResource > -1 ∧ ∃ t m,
        x = acc ++ [predicate "apiResourceTemplate" t, predicate "apiMethod" m]) := by
  unfold pushResourceFilter at h
  by_cases hs : s.selectedResource > -1
  · right
    refine ⟨hs, ?_⟩
    simp only [hs, if_true] at h
    cases he : jsIndex s.operationList s.selectedResource with
    | none => simp [he] at h
    | some entry =>
      simp only [he, Except.ok.injEq] at h
      refine ⟨(cell entry 0).toJSString, (cell entry 1).toJSString, ?_⟩
      rw [← h]
      simp [predicate]
  · left
    simp only [hs, if_false, Except.ok.injEq] at h
    exact ⟨hs, h.symm⟩

theorem pushAppFilter_ok {s : State} {acc x : List String}
    (h : pushAppFilter s acc = .ok x) :
    (s.selectedApp = -1 ∧ x = acc) ∨
      (s.selectedApp ≠ -1 ∧ ∃ n o,
        x = acc ++ [predicate "applicationName" n, predicate "applicationOwner" o]) := by
  unfold pushAppFilter at h
  by_cases hs : s.selectedApp = -1
  · left
    simp [hs] at h
    exact ⟨hs, h.symm⟩
  · right
    refine ⟨hs, ?_⟩
    simp only [ne_eq, hs, not_false_eq_true, if_true] at h
    cases he : jsIndex s.appList s.selectedApp with
    | none => simp [he] at h
    | some entry =>
      simp only [he, Except.ok.injEq] at h
      refine ⟨(cell entry 0).toJSString, (cell entry 1).toJSString, ?_⟩
      rw [← h]
      simp [predicate]

theorem filterPhase_ok {s : State} {fs : List String} (h : filterPhase s = .ok fs) :
    ∃ x1 x2, pushVersionFilter s (pushApiFilter s []) = .ok x1 ∧
      pushResourceFilter s x1 = .ok x2 ∧ pushAppFilter s x2 = .ok fs := by
  unfold filterPhase at h
  cases h1 : pushVersionFilter s (pushApiFilter s []) with
  | error e => rw [h1] at h; cases h
  | ok x1 =>
    rw [h1] at h
    change pushResourceFilter s x1 >>= pushAppFilter s = .ok fs at h
    cases h2 : pushResourceFilter s x1 with
    | error e => rw [h2] at h; cases h
    | ok x2 =>
      rw [h2] at h
      exact ⟨x1, x2, rfl, h2, h⟩

/-- Every predicate of the filter comes from a block whose guard was true. -/
theorem mem_filterPhase {s : State} {fs : List String} (h : filterPhase s = .ok fs)
    {p : String} (hp : p ∈ fs) :
    (s.selectedAPI ≠ JSVal.num (-1) ∧ p = predicate "apiName" s.selectedAPI.toJSString) ∨
    (s.selectedVersion ≠ -1 ∧ ∃ v, p = predicate "apiVersion" v) ∨
    (s.selectedResource > -1 ∧
      ∃ v, p = predicate "apiResourceTemplate" v ∨ p = predicate "apiMethod" v) ∨
    (s.selectedApp ≠ -1 ∧
      ∃ v, p = predicate "applicationName" v ∨ p = predicate "applicationOwner" v) := by
  obtain ⟨x1, x2, h1, h2, h3⟩ := filterPhase_ok h
  have m3 : p ∈ x2 ∨ (s.selectedApp ≠ -1 ∧
      ∃ v, p = predicate "applicationName" v ∨ p = predicate "applicationOwner" v) := by
    rcases pushAppFilter_ok h3 with ⟨_, e⟩ | ⟨hs, n, o, e⟩
    · left; rw [← e]; exact hp
    · rw [e] at hp
      simp only [List.mem_append, List.mem_cons, List.mem_singleton, List.not_mem_nil,
        or_false] at hp
      rcases hp with hp | hp | hp
      · left; exact hp
      · right; exact ⟨hs, n, Or.inl hp⟩
      · right; exact ⟨hs, o, Or.inr hp⟩
  rcases m3 with m3 | m3
  swap
  · exact Or.inr (Or.inr (Or.inr m3))
  have m2 : p ∈ x1 ∨ (s.selectedResource > -1 ∧
      ∃ v, p = predicate "apiResourceTemplate" v ∨ p = predicate "apiMethod" v) := by
    rcases pushResourceFilter_ok h2 with ⟨_, e⟩ | ⟨hs, t, m, e⟩
    · left; rw [← e]; exact m3
    · rw [e] at m3
      simp only [List.mem_append, List.mem_cons, List.mem_singleton, List.not_mem_nil,
        or_false] at m3
      rcases m3 with hp | hp | hp
      · left; exact hp
      · right; exact ⟨hs, t, Or.inl hp⟩
      · right; exact ⟨hs, m, Or.inr hp⟩
  rcases m2 with m2 | m2
  swap
  · exact Or.inr (Or.inr (Or.inl m2))
  have m1 : p ∈ pushApiFilter s [] ∨ (s.selectedVersion ≠ -1 ∧
      ∃ v, p = predicate "apiVersion" v) := by
    rcases pushVersionFilter_ok h1 with ⟨_, e⟩ | ⟨hs, v, e⟩
    · left; rw [← e]; exact m2
    · rw [e] at m2
      simp only [List.mem_append, List.mem_singleton] at m2
      rcases m2 with hp | hp
      · left; exact hp
      · right; exact ⟨hs, v, hp⟩
  rcases m1 with m1 | m1
  swap
  · exact Or.inr (Or.inl m1)
  left
  rw [pushApiFilter_eq] at m1
  by_cases ha : s.selectedAPI = JSVal.num (-1)
  · simp [ha] at m1
  · simp [ha] at m1
    exact ⟨ha, m1⟩

/-! ## Field names are told apart by the start of a predicate -/

theorem onField_predicate (field value : String) : onField field (predicate field value) := by
  unfold onField predicate
  simp only [String.data_append]
  exact (List.prefix_append _ _).trans (List.prefix_append _ _)

theorem not_onField_predicate {f g : String} (hf : f ∈ fieldNames) (hg : g ∈ fieldNames)
    (hne : f ≠ g) (value : String) : ¬ onField f (predicate g value) := by
  simp only [fieldNames, List.mem_cons, List.mem_singleton, List.not_mem_nil, or_false] at hf hg
  rcases hf with rfl | rfl | rfl | rfl | rfl | rfl <;>
    rcases hg with rfl | rfl | rfl | rfl | rfl | rfl <;>
    first
    | exact absurd rfl hne
    | (unfold onField predicate
       simp [String.data_append, List.cons_prefix_cons])

/-! ## Filter predicates of the query (C1, C2) -/

/-- C1: in a state whose index selections are valid, the filter predicates that
`getQueryForAPI` builds and hands to `assembleFetchDataQuery` are the
specification's list: API name, then API version, then resource template and
method, then application name and owner, each present exactly when its
selection is. The order is fixed: after the selection handlers have been called
in two different orders (each selection made once), the filter built is the
same. -/
theorem getQueryForAPI_filter_fixed_order (props : Props) (s : State) (h : ValidIndices s) :
    filterPhase s = .ok (specFilterPredicates s) ∧
    getQueryForAPI props s =
      assembleFetchDataQuery props s selectPhase groupByPhase (specFilterPredicates s) ∧
    ∀ calls calls' : List Selection, calls.Perm calls' →
      calls.Pairwise (fun c d => c.kind ≠ d.kind) →
      filterPhase (selectAll props s calls) = filterPhase (selectAll props s calls') := by
  have hf := filterPhase_of_valid s h
  refine ⟨hf, ?_, ?_⟩
  · simp only [getQueryForAPI, hf]
  · intro calls calls' hp hd
    exact filterPhase_congr (selectAll_perm props hp hd (sameFilterInputs_refl s))

/-- Witness of C1: the fully selected sample state, and two orders of the four
selection calls. -/
theorem getQueryForAPI_filter_fixed_order_witness :
    ValidIndices fullySelectedState ∧
    filterPhase fullySelectedState =
      .ok [ "apiName==\x27PizzaShack\x27", "apiVersion==\x272.0.0\x27",
            "apiResourceTemplate==\x27/menu\x27", "apiMethod==\x27GET\x27",
            "applicationName==\x27DefaultApplication\x27",
            "applicationOwner==\x27admin\x27" ] ∧
    filterPhase (selectAll sampleProps fullySelectedState
        [Selection.application 0, Selection.operation 1, Selection.version 0,
          Selection.api (JSVal.str "Petstore")]) =
      filterPhase (selectAll sampleProps fullySelectedState
        [Selection.api (JSVal.str "Petstore"), Selection.version 0, Selection.operation 1,
          Selection.application 0]) :=
  ⟨by decide,
    (getQueryForAPI_filter_fixed_order sampleProps fullySelectedState (by decide)).1,
    (getQueryForAPI_filter_fixed_order sampleProps fullySelectedState (by decide)).2.2 _ _
      (by decide) (by decide)⟩

/-- C2: when the API, version, operation and application are all unselected,
`getQueryForAPI` builds no filter predicate, whatever the option lists, the
limit and the time window are: it calls `assembleFetchDataQuery` with the empty
filter, and a query it issues has the empty filter clause. The state the
constructor creates is such a state. -/
theorem getQueryForAPI_unselected_no_filter (props : Props) (s : State)
    (hApi : s.selectedAPI = JSVal.num (-1)) (hVersion : s.selectedVersion = -1)
    (hResource : s.selectedResource = -1) (hApp : s.selectedApp = -1) :
    filterPhase s = .ok [] ∧
    getQueryForAPI props s = assembleFetchDataQuery props s selectPhase groupByPhase [] ∧
    (∀ cfg, s.providerConfig = some cfg →
      ∃ q, dataQuery (getQueryForAPI props s) = some q ∧
        queryValue q "\x7b\x7bquerystring\x7d\x7d" = some (JSVal.str "")) ∧
    ∀ (props' : Props) (c : Constants), filterPhase (constructor props' c) = .ok [] := by
  have hf : ∀ t : State, t.selectedAPI = JSVal.num (-1) → t.selectedVersion = -1 →
      t.selectedResource = -1 → t.selectedApp = -1 → filterPhase t = .ok [] := by
    intro t h1 h2 h3 h4
    rw [filterPhase_of_valid t ⟨Or.inl h2, Or.inl h3, Or.inl h4⟩]
    simp [specFilterPredicates, h1, h2, h3, h4]
  have hq : getQueryForAPI props s =
      assembleFetchDataQuery props s selectPhase groupByPhase [] := by
    simp only [getQueryForAPI, hf s hApi hVersion hResource hApp]
  refine ⟨hf s hApi hVersion hResource hApp, hq, ?_, ?_⟩
  · intro cfg hcfg
    rw [hq]
    simp [assembleFetchDataQuery, withQueryName, hcfg, dataQuery, queryValue,
      drillDownQueryValues, List.lookup]
  · intro props' c
    exact hf _ rfl rfl rfl rfl

/-- Witness of C2: the state the constructor creates. -/
theorem getQueryForAPI_unselected_no_filter_witness :
    filterPhase (constructor sampleProps sampleConstants) = .ok [] :=
  (getQueryForAPI_unselected_no_filter sampleProps (constructor sampleProps sampleConstants)
    rfl rfl rfl rfl).1

/-! ## Parent selections and their children (C3, C4) -/

/-- C3, counterexample: with version 1 and operation 0 selected, selecting the
API `Petstore` leaves the version selection at 1 and the operation selection
at 0; neither is reset to `-1`. -/
theorem handleAPIChange_resets_children_counterexample :
    (handleAPIChange sampleProps fullySelectedState (JSVal.str "Petstore")).state.selectedVersion
      = 1 ∧
    (handleAPIChange sampleProps fullySelectedState (JSVal.str "Petstore")).state.selectedResource
      = 0 ∧
    ¬ ((handleAPIChange sampleProps fullySelectedState
          (JSVal.str "Petstore")).state.selectedAPI = JSVal.str "Petstore" ∧
       (handleAPIChange sampleProps fullySelectedState
          (JSVal.str "Petstore")).state.selectedVersion = -1 ∧
       (handleAPIChange sampleProps fullySelectedState
          (JSVal.str "Petstore")).state.selectedResource = -1) := by
  decide

/-- C3, amended: `handleAPIChange` stores the given value as `selectedAPI` and
leaves `selectedVersion` and `selectedResource` (and the application selection
and the option lists) as they were. -/
theorem handleAPIChange_sets_api_only (props : Props) (s : State) (apiId : JSVal) :
    (handleAPIChange props s apiId).state.selectedAPI = apiId ∧
    (handleAPIChange props s apiId).state.selectedVersion = s.selectedVersion ∧
    (handleAPIChange props s apiId).state.selectedResource = s.selectedResource ∧
    (handleAPIChange props s apiId).state.selectedApp = s.selectedApp ∧
    (handleAPIChange props s apiId).state.versionList = s.versionList ∧
    (handleAPIChange props s apiId).state.operationList = s.operationList ∧
    (handleAPIChange props s apiId).state.appList = s.appList := by
  have h := select_same props s (Selection.api apiId)
  exact h

/-- C4, counterexample: with operation 0 selected, selecting version 0 (a valid
index) leaves the operation selection at 0; it is not reset to `-1`. -/
theorem handleVersionChange_resets_resource_counterexample :
    validIndex 0 fullySelectedState.versionList ∧
    (handleVersionChange sampleProps fullySelectedState 0).state.selectedResource = 0 ∧
    ¬ ((handleVersionChange sampleProps fullySelectedState 0).state.selectedVersion = 0 ∧
       (handleVersionChange sampleProps fullySelectedState 0).state.selectedResource = -1) := by
  decide

/-- C4, amended: for an index of an entry of `versionList`, `handleVersionChange`
stores the index as `selectedVersion` and leaves `selectedResource` as it was;
once the provider configuration is loaded it subscribes the channel
`id_loadOperations` with the query `listOperationsQuery` whose only value is
component 0 of `versionList[versionIndex]`. -/
theorem handleVersionChange_sets_version_only (props : Props) (s : State) (versionIndex : Int)
    (h0 : 0 ≤ versionIndex) (h1 : versionIndex < s.versionList.length)
    (cfg : ProviderConfig) (hcfg : s.providerConfig = some cfg) :
    (handleVersionChange props s versionIndex).state.selectedVersion = versionIndex ∧
    (handleVersionChange props s versionIndex).state.selectedResource = s.selectedResource ∧
    Effect.subscribeWidget (props.id ++ "_loadOperations") props.widgetID
        Handler.handleLoadOperations
        { settings := cfg.settings
          queryData :=
            { queryName := "listOperationsQuery"
              queryValues :=
                [("\x7b\x7bselectedVersion\x7d\x7d", entryCell s.versionList versionIndex 0)] } }
      ∈ (handleVersionChange props s versionIndex).effects ∧
    (handleVersionChange props s versionIndex).effects =
      (loadOperations props s (entryCell s.versionList versionIndex 0)).effects ++
        (getQueryForAPI props { s with selectedVersion := versionIndex }).effects := by
  have h := select_same props s (Selection.version versionIndex)
  obtain ⟨api, hapi⟩ := jsIndex_of_inRange s.versionList versionIndex h0 h1
  refine ⟨h.2.1, h.2.2.1, ?_, ?_⟩
  swap
  · show (match jsIndex s.versionList versionIndex with
      | none => Outcome.throw s JSError.typeError
      | some api => loadOperations props s (cell api 0)).effects ++ _ = _
    simp only [hapi, entryCell, Option.getD_some]
    rw [loadOperations_state]
    rfl
  have hb : (match jsIndex s.versionList versionIndex with
      | none => Outcome.throw s JSError.typeError
      | some api => loadOperations props s (cell api 0)).effects =
      [Effect.subscribeWidget (props.id ++ "_loadOperations") props.widgetID
        Handler.handleLoadOperations
        { settings := cfg.settings
          queryData :=
            { queryName := "listOperationsQuery"
              queryValues :=
                [("\x7b\x7bselectedVersion\x7d\x7d",
                  entryCell s.versionList versionIndex 0)] } }] := by
    simp [hapi, loadOperations, withQueryName, hcfg, entryCell]
  show _ ∈ (match jsIndex s.versionList versionIndex with
      | none => Outcome.throw s JSError.typeError
      | some api => loadOperations props s (cell api 0)).effects ++ _
  rw [hb]
  simp

/-- Witness of the amended C4: version 0 selected in the fully selected state. -/
theorem handleVersionChange_sets_version_only_witness :
    (handleVersionChange sampleProps fullySelectedState 0).state.selectedVersion = 0 ∧
    (handleVersionChange sampleProps fullySelectedState 0).state.selectedResource = 0 ∧
    Effect.subscribeWidget "w1_loadOperations" "AppAndAPIErrorsByTime"
        Handler.handleLoadOperations
        { settings := "RDBMSStreamingDataProvider"
          queryData :=
            { queryName := "listOperationsQuery"
              queryValues := [("\x7b\x7bselectedVersion\x7d\x7d", JSVal.str "PizzaShack")] } }
      ∈ (handleVersionChange sampleProps fullySelectedState 0).effects :=
  ⟨(handleVersionChange_sets_version_only sampleProps fullySelectedState 0 (by decide)
      (by decide) sampleConfig rfl).1,
    (handleVersionChange_sets_version_only sampleProps fullySelectedState 0 (by decide)
      (by decide) sampleConfig rfl).2.1,
    (handleVersionChange_sets_version_only sampleProps fullySelectedState 0 (by decide)
      (by decide) sampleConfig rfl).2.2.1⟩

/-! ## Shape of the filter clause and of the query (C5, C6, C7) -/

theorem onField_of_mem {s : State} {fs : List String} (h : filterPhase s = .ok fs)
    {p : String} (hp : p ∈ fs) {f : String} (hf : f ∈ fieldNames) (hon : onField f p) :
    (f = "apiName" ∧ s.selectedAPI ≠ JSVal.num (-1)) ∨
    (f = "apiVersion" ∧ s.selectedVersion ≠ -1) ∨
    ((f = "apiResourceTemplate" ∨ f = "apiMethod") ∧ s.selectedResource > -1) ∨
    ((f = "applicationName" ∨ f = "applicationOwner") ∧ s.selectedApp ≠ -1) := by
  have key : ∀ g v, g ∈ fieldNames → p = predicate g v → f = g := by
    intro g v hg hpg
    by_contra hne
    exact not_onField_predicate hf hg hne v (hpg ▸ hon)
  rcases mem_filterPhase h hp with ⟨hs, e⟩ | ⟨hs, v, e⟩ | ⟨hs, v, e | e⟩ | ⟨hs, v, e | e⟩
  · exact Or.inl ⟨key _ _ (by decide) e, hs⟩
  · exact Or.inr (Or.inl ⟨key _ _ (by decide) e, hs⟩)
  · exact Or.inr (Or.inr (Or.inl ⟨Or.inl (key _ _ (by decide) e), hs⟩))
  · exact Or.inr (Or.inr (Or.inl ⟨Or.inr (key _ _ (by decide) e), hs⟩))
  · exact Or.inr (Or.inr (Or.inr ⟨Or.inl (key _ _ (by decide) e), hs⟩))
  · exact Or.inr (Or.inr (Or.inr ⟨Or.inr (key _ _ (by decide) e), hs⟩))

theorem intercalate_go_eq_foldl (sep lead : String) (rest : List String) :
    ∀ acc : String, lead ++ String.intercalate.go acc sep rest =
      rest.foldl (fun clause q => clause ++ sep ++ q) (lead ++ acc) := by
  induction rest with
  | nil => intro acc; rfl
  | cons q rest ih =>
    intro acc
    simp only [String.intercalate.go, List.foldl_cons]
    rw [ih, String.append_assoc, String.append_assoc, String.append_assoc]

theorem querystring_eq_spec (fs : List String) :
    (if fs.length > 0 then "on " ++ join fs " AND " else "") = specQueryString fs := by
  cases fs with
  | nil => rfl
  | cons p rest =>
    simp only [List.length_cons, gt_iff_lt, Nat.zero_lt_succ, if_true, join,
      String.intercalate, specQueryString]
    exact intercalate_go_eq_foldl " AND " "on " rest p

/-- C5: for each of the four selections on its own, whatever the other three
are: when it is unselected (`-1`) the filter that `getQueryForAPI` builds holds
no predicate on its field or fields, and so none that compares the field with
the text `-1`. -/
theorem getQueryForAPI_omits_unselected (s : State) (fs : List String)
    (h : filterPhase s = .ok fs) :
    (s.selectedAPI = JSVal.num (-1) →
      (∀ p ∈ fs, ¬ onField "apiName" p) ∧ predicate "apiName" "-1" ∉ fs) ∧
    (s.selectedVersion = -1 →
      (∀ p ∈ fs, ¬ onField "apiVersion" p) ∧ predicate "apiVersion" "-1" ∉ fs) ∧
    (s.selectedResource = -1 →
      (∀ p ∈ fs, ¬ onField "apiResourceTemplate" p ∧ ¬ onField "apiMethod" p) ∧
      predicate "apiResourceTemplate" "-1" ∉ fs ∧ predicate "apiMethod" "-1" ∉ fs) ∧
    (s.selectedApp = -1 →
      (∀ p ∈ fs, ¬ onField "applicationName" p ∧ ¬ onField "applicationOwner" p) ∧
      predicate "applicationName" "-1" ∉ fs ∧ predicate "applicationOwner" "-1" ∉ fs) := by
  have hApi : s.selectedAPI = JSVal.num (-1) → ∀ p ∈ fs, ¬ onField "apiName" p := by
    intro hs p hp hon
    rcases onField_of_mem h hp (by decide) hon with ⟨_, g⟩ | ⟨e, _⟩ | ⟨e | e, _⟩ | ⟨e | e, _⟩
    · exact g hs
    all_goals exact absurd e (by decide)
  have hVer : s.selectedVersion = -1 → ∀ p ∈ fs, ¬ onField "apiVersion" p := by
    intro hs p hp hon
    rcases onField_of_mem h hp (by decide) hon with ⟨e, _⟩ | ⟨_, g⟩ | ⟨e | e, _⟩ | ⟨e | e, _⟩
    · exact absurd e (by decide)
    · exact g hs
    all_goals exact absurd e (by decide)
  have hTpl : s.selectedResource = -1 → ∀ p ∈ fs, ¬ onField "apiResourceTemplate" p := by
    intro hs p hp hon
    rcases onField_of_mem h hp (by decide) hon with ⟨e, _⟩ | ⟨e, _⟩ | ⟨_, g⟩ | ⟨e | e, _⟩
    · exact absurd e (by decide)
    · exact absurd e (by decide)
    · omega
    all_goals exact absurd e (by decide)
  have hMet : s.selectedResource = -1 → ∀ p ∈ fs, ¬ onField "apiMethod" p := by
    intro hs p hp hon
    rcases onField_of_mem h hp (by decide) hon with ⟨e, _⟩ | ⟨e, _⟩ | ⟨_, g⟩ | ⟨e | e, _⟩
    · exact absurd e (by decide)
    · exact absurd e (by decide)
    · omega
    all_goals exact absurd e (by decide)
  have hNam : s.selectedApp = -1 → ∀ p ∈ fs, ¬ onField "applicationName" p := by
    intro hs p hp hon
    rcases onField_of_mem h hp (by decide) hon with ⟨e, _⟩ | ⟨e, _⟩ | ⟨e | e, _⟩ | ⟨_, g⟩
    · exact absurd e (by decide)
    · exact absurd e (by decide)
    · exact absurd e (by decide)
    · exact absurd e (by decide)
    · exact g hs
  have hOwn : s.selectedApp = -1 → ∀ p ∈ fs, ¬ onField "applicationOwner" p := by
    intro hs p hp hon
    rcases onField_of_mem h hp (by decide) hon with ⟨e, _⟩ | ⟨e, _⟩ | ⟨e | e, _⟩ | ⟨_, g⟩
    · exact absurd e (by decide)
    · exact absurd e (by decide)
    · exact absurd e (by decide)
    · exact absurd e (by decide)
    · exact g hs
  refine ⟨fun hs => ⟨hApi hs, fun hm => hApi hs _ hm (onField_predicate _ _)⟩,
    fun hs => ⟨hVer hs, fun hm => hVer hs _ hm (onField_predicate _ _)⟩,
    fun hs => ⟨fun p hp => ⟨hTpl hs p hp, hMet hs p hp⟩,
      fun hm => hTpl hs _ hm (onField_predicate _ _),
      fun hm => hMet hs _ hm (onField_predicate _ _)⟩,
    fun hs => ⟨fun p hp => ⟨hNam hs p hp, hOwn hs p hp⟩,
      fun hm => hNam hs _ hm (onField_predicate _ _),
      fun hm => hOwn hs _ hm (onField_predicate _ _)⟩⟩

/-- Witness of C5: only the application selected; the filter has the two
application predicates and nothing on the API, version or operation. -/
theorem getQueryForAPI_omits_unselected_witness :
    filterPhase { loadedState with selectedApp := 0 } =
      .ok [ "applicationName==\x27DefaultApplication\x27",
            "applicationOwner==\x27admin\x27" ] ∧
    ((∀ p ∈ [ "applicationName==\x27DefaultApplication\x27",
              "applicationOwner==\x27admin\x27" ], ¬ onField "apiName" p) ∧
      predicate "apiName" "-1" ∉
        [ "applicationName==\x27DefaultApplication\x27",
          "applicationOwner==\x27admin\x27" ]) :=
  ⟨rfl, (getQueryForAPI_omits_unselected { loadedState with selectedApp := 0 } _ rfl).1 rfl⟩

/-- C6: every predicate that reaches `assembleFetchDataQuery` has the form
`field=='value'` for one of the six fields; for every list of predicates the
`querystring` value of the query is the empty string when the list is empty,
and otherwise `on` followed by the predicates in their order with ` AND `
between them. -/
theorem assembleFetchDataQuery_querystring (props : Props) (s : State) (cfg : ProviderConfig)
    (hcfg : s.providerConfig = some cfg) (sel grp fs : List String) :
    (∃ q, dataQuery (assembleFetchDataQuery props s sel grp fs) = some q ∧
      queryValue q "\x7b\x7bquerystring\x7d\x7d" = some (JSVal.str (specQueryString fs))) ∧
    (∀ q, dataQuery (assembleFetchDataQuery props s sel grp []) = some q →
      queryValue q "\x7b\x7bquerystring\x7d\x7d" = some (JSVal.str "")) ∧
    ∀ built, filterPhase s = .ok built →
      ∀ p ∈ built, ∃ field ∈ fieldNames, ∃ value, p = predicate field value := by
  have hq : ∀ l : List String, ∃ q, dataQuery (assembleFetchDataQuery props s sel grp l) = some q ∧
      queryValue q "\x7b\x7bquerystring\x7d\x7d" = some (JSVal.str (specQueryString l)) := by
    intro l
    simp only [assembleFetchDataQuery, withQueryName, hcfg, dataQuery, List.findSome?]
    refine ⟨_, rfl, ?_⟩
    simp only [queryValue, drillDownQueryValues, querystring_eq_spec]
    rfl
  refine ⟨hq fs, ?_, ?_⟩
  · intro q hq1
    obtain ⟨q2, h1, h2⟩ := hq []
    rw [h1] at hq1
    cases hq1
    exact h2
  · intro built hb p hp
    rcases mem_filterPhase hb hp with ⟨_, e⟩ | ⟨_, v, e⟩ | ⟨_, v, e | e⟩ | ⟨_, v, e | e⟩
    · exact ⟨_, by decide, _, e⟩
    · exact ⟨_, by decide, _, e⟩
    · exact ⟨"apiResourceTemplate", by decide, _, e⟩
    · exact ⟨"apiMethod", by decide, _, e⟩
    · exact ⟨"applicationName", by decide, _, e⟩
    · exact ⟨"applicationOwner", by decide, _, e⟩

/-- Witness of C6: two predicates, joined in their order. -/
theorem assembleFetchDataQuery_querystring_witness :
    ∃ q, dataQuery (assembleFetchDataQuery sampleProps loadedState selectPhase groupByPhase
        ["apiName==\x27PizzaShack\x27", "apiVersion==\x272.0.0\x27"]) = some q ∧
      queryValue q "\x7b\x7bquerystring\x7d\x7d" =
        some (JSVal.str "on apiName==\x27PizzaShack\x27 AND apiVersion==\x272.0.0\x27") :=
  (assembleFetchDataQuery_querystring sampleProps loadedState sampleConfig rfl
    selectPhase groupByPhase ["apiName==\x27PizzaShack\x27", "apiVersion==\x272.0.0\x27"]).1

/-- C7: every query that `getQueryForAPI` issues, whatever the selections, has
the same select columns in the same order (the timestamp, then the sums of the
4xx, 5xx, success, fault and throttled counts) and is grouped by the timestamp
column alone. -/
theorem getQueryForAPI_fixed_columns (props : Props) (s : State) (q : ProviderConfig)
    (h : dataQuery (getQueryForAPI props s) = some q) :
    queryValue q "\x7b\x7bselectPhase\x7d\x7d" = some (JSVal.str
      ("AGG_TIMESTAMP,sum(_4xx) as _4xx,sum(_5xx) as _5xx,sum(successCount) as successCount," ++
        "sum(faultCount) as faultCount,sum(throttledCount) as throttledCount")) ∧
    queryValue q "\x7b\x7bgroupByPhase\x7d\x7d" = some (JSVal.str "group by AGG_TIMESTAMP") ∧
    ∃ fs, getQueryForAPI props s = assembleFetchDataQuery props s
      [ "AGG_TIMESTAMP", "sum(_4xx) as _4xx", "sum(_5xx) as _5xx",
        "sum(successCount) as successCount", "sum(faultCount) as faultCount",
        "sum(throttledCount) as throttledCount" ] ["AGG_TIMESTAMP"] fs := by
  unfold getQueryForAPI at h ⊢
  cases hf : filterPhase s with
  | error e => rw [hf] at h; simp [Outcome.throw, dataQuery] at h
  | ok fs =>
    rw [hf] at h
    simp only []
    refine ⟨?_, ?_, fs, rfl⟩ <;>
    · cases hc : s.providerConfig with
      | none => simp [assembleFetchDataQuery, withQueryName, hc, dataQuery] at h
      | some cfg =>
        simp only [assembleFetchDataQuery, withQueryName, hc, dataQuery, List.findSome?,
          Option.some.injEq] at h
        subst h
        rfl

/-- Witness of C7: the query issued in the fully selected state. -/
theorem getQueryForAPI_fixed_columns_witness :
    ∃ q, dataQuery (getQueryForAPI sampleProps fullySelectedState) = some q ∧
      queryValue q "\x7b\x7bgroupByPhase\x7d\x7d" = some (JSVal.str "group by AGG_TIMESTAMP") :=
  ⟨_, rfl, (getQueryForAPI_fixed_columns sampleProps fullySelectedState _ rfl).2.1⟩

/-! ## The limit (C8, C9) -/

theorem lookup_map_replace (key : String) (value : JSVal) (l : List (String × JSVal))
    (k : String) (hk : k ≠ key) :
    (l.map fun kv => if kv.1 = key then (kv.1, value) else kv).lookup k = l.lookup k := by
  induction l with
  | nil => rfl
  | cons kv rest ih =>
    obtain ⟨a, b⟩ := kv
    simp only [List.map_cons]
    by_cases ha : a = key
    · rw [if_pos ha]
      have hne : (k == a) = false := by rw [ha]; simpa using hk
      simp only [List.lookup_cons, hne]
      exact ih
    · rw [if_neg ha]
      simp only [List.lookup_cons]
      rw [ih]

theorem dataQuery_map_withLimit (limit : JSVal) (o o2 : Outcome)
    (h : o2.effects = o.effects.map (withLimit limit)) :
    dataQuery o2 = (dataQuery o).map (setLimit limit) := by
  unfold dataQuery
  rw [h]
  induction o.effects with
  | nil => rfl
  | cons e rest ih =>
    cases e with
    | unsubscribeWidget id =>
      simp only [List.map_cons, List.findSome?_cons, withLimit]
      exact ih
    | subscribeWidget id w hd cfg =>
      cases hd <;> simp only [List.map_cons, List.findSome?_cons, withLimit] <;>
        first | exact ih | rfl

theorem getQueryForAPI_limit_effects (props : Props) (s : State) (limit : JSVal) :
    (getQueryForAPI props { s with selectedLimit := limit }).effects =
      (getQueryForAPI props s).effects.map (withLimit limit) ∧
    (getQueryForAPI props { s with selectedLimit := limit }).error =
      (getQueryForAPI props s).error := by
  have hf : filterPhase { s with selectedLimit := limit } = filterPhase s :=
    filterPhase_congr (by simp [sameFilterInputs])
  unfold getQueryForAPI
  rw [hf]
  cases filterPhase s with
  | error e => exact ⟨rfl, rfl⟩
  | ok fs =>
    simp only [assembleFetchDataQuery]
    cases s.providerConfig with
    | none => exact ⟨rfl, rfl⟩
    | some cfg => exact ⟨rfl, rfl⟩

/-- C8: the channel calls of `handleLimitChange` are those `getQueryForAPI` makes
in the state before the change, with only the limit of the query replaced by
the new value: every other query value (filter clause, group-by, select
columns, time range, granularity) is the same, and so is the outcome; the
selections and the option lists of the state are unchanged. -/
theorem handleLimitChange_changes_limit_only (props : Props) (s : State) (limit : JSVal) :
    (handleLimitChange props s limit).effects =
      (getQueryForAPI props s).effects.map (withLimit limit) ∧
    (handleLimitChange props s limit).error = (getQueryForAPI props s).error ∧
    (∀ q, dataQuery (handleLimitChange props s limit) = some q →
      queryValue q "\x7b\x7blimit\x7d\x7d" = some limit ∧
      ∃ q0, dataQuery (getQueryForAPI props s) = some q0 ∧
        ∀ k, k ≠ "\x7b\x7blimit\x7d\x7d" → queryValue q k = queryValue q0 k) ∧
    sameFilterInputs (handleLimitChange props s limit).state s ∧
    (handleLimitChange props s limit).state.apiList = s.apiList := by
  have he : (handleLimitChange props s limit).effects =
      (getQueryForAPI props s).effects.map (withLimit limit) := by
    show [] ++ (getQueryForAPI props { s with selectedLimit := limit }).effects = _
    rw [List.nil_append]
    exact (getQueryForAPI_limit_effects props s limit).1
  have hst : (handleLimitChange props s limit).state = { s with selectedLimit := limit } ∨
      (handleLimitChange props s limit).state =
        { s with selectedLimit := limit, loading := some true } := by
    rw [handleLimitChange_state]
    exact getQueryForAPI_state props _
  refine ⟨he, ?_, ?_, ?_, ?_⟩
  · show (none <|> (getQueryForAPI props { s with selectedLimit := limit }).error) = _
    rw [(getQueryForAPI_limit_effects props s limit).2]
    rfl
  · intro q hq
    rw [dataQuery_map_withLimit limit _ _ he] at hq
    cases h0 : dataQuery (getQueryForAPI props s) with
    | none => rw [h0] at hq; cases hq
    | some q0 =>
      rw [h0] at hq
      simp only [Option.map_some', Option.some.injEq] at hq
      subst hq
      refine ⟨?_, q0, rfl, ?_⟩
      · unfold getQueryForAPI at h0
        cases hf : filterPhase s with
        | error e => rw [hf] at h0; simp [Outcome.throw, dataQuery] at h0
        | ok fs =>
          rw [hf] at h0
          cases hc : s.providerConfig with
          | none => simp [assembleFetchDataQuery, withQueryName, hc, dataQuery] at h0
          | some cfg =>
            simp only [assembleFetchDataQuery, withQueryName, hc, dataQuery, List.findSome?,
              Option.some.injEq] at h0
            subst h0
            rfl
      · intro k hk
        exact lookup_map_replace _ limit _ k hk
  · rcases hst with h | h <;> rw [h] <;> simp [sameFilterInputs]
  · rcases hst with h | h <;> rw [h]

/-- Witness of C8: the limit 10 set in the fully selected state. -/
theorem handleLimitChange_changes_limit_only_witness :
    ∃ q, dataQuery (handleLimitChange sampleProps fullySelectedState (JSVal.num 10)) = some q ∧
      queryValue q "\x7b\x7blimit\x7d\x7d" = some (JSVal.num 10) ∧
      ∃ q0, dataQuery (getQueryForAPI sampleProps fullySelectedState) = some q0 ∧
        ∀ k, k ≠ "\x7b\x7blimit\x7d\x7d" → queryValue q k = queryValue q0 k :=
  ⟨_, rfl, (handleLimitChange_changes_limit_only sampleProps fullySelectedState
    (JSVal.num 10)).2.2.1 _ rfl⟩

/-- C9, counterexample: the limit was 5; the text `abc` and the number `-3` are
both stored as the limit, neither is a non-negative integer and neither leaves
the previous value in place; the text `7` is stored as text, not as the
number 7. -/
theorem handleLimitChange_validates_counterexample :
    loadedState.selectedLimit = JSVal.num 5 ∧
    (handleLimitChange sampleProps loadedState (JSVal.str "abc")).state.selectedLimit
      = JSVal.str "abc" ∧
    ¬ isNonNegativeInteger
      (handleLimitChange sampleProps loadedState (JSVal.str "abc")).state.selectedLimit ∧
    (handleLimitChange sampleProps loadedState (JSVal.num (-3))).state.selectedLimit
      = JSVal.num (-3) ∧
    ¬ isNonNegativeInteger
      (handleLimitChange sampleProps loadedState (JSVal.num (-3))).state.selectedLimit ∧
    (handleLimitChange sampleProps loadedState (JSVal.str "7")).state.selectedLimit
      ≠ JSVal.num 7 := by
  decide

/-- C9, amended: `handleLimitChange` stores the value it is given as
`selectedLimit`, as it is, whatever it is; the query it issues carries that
value as its limit. -/
theorem handleLimitChange_stores_value (props : Props) (s : State) (limitValue : JSVal) :
    (handleLimitChange props s limitValue).state.selectedLimit = limitValue ∧
    ∀ q, dataQuery (handleLimitChange props s limitValue) = some q →
      queryValue q "\x7b\x7blimit\x7d\x7d" = some limitValue := by
  constructor
  · rw [handleLimitChange_state]
    rcases getQueryForAPI_state props { s with selectedLimit := limitValue } with h | h <;>
      rw [h]
  · intro q hq
    have he : (handleLimitChange props s limitValue).effects =
        (getQueryForAPI props { s with selectedLimit := limitValue }).effects := by
      show [] ++ _ = _
      rw [List.nil_append]
      rfl
    have hd : dataQuery (handleLimitChange props s limitValue) =
        dataQuery (getQueryForAPI props { s with selectedLimit := limitValue }) := by
      unfold dataQuery
      rw [he]
    rw [hd] at hq
    unfold getQueryForAPI at hq
    cases hf : filterPhase { s with selectedLimit := limitValue } with
    | error e => rw [hf] at hq; simp [Outcome.throw, dataQuery] at hq
    | ok fs =>
      rw [hf] at hq
      cases hc : s.providerConfig with
      | none => simp [assembleFetchDataQuery, withQueryName, hc, dataQuery] at hq
      | some cfg =>
        simp only [assembleFetchDataQuery, withQueryName, hc, dataQuery, List.findSome?,
          Option.some.injEq] at hq
        subst hq
        rfl

/-- Witness of the amended C9: the text `abc` given as the limit. -/
theorem handleLimitChange_stores_value_witness :
    ∃ q, dataQuery (handleLimitChange sampleProps loadedState (JSVal.str "abc")) = some q ∧
      queryValue q "\x7b\x7blimit\x7d\x7d" = some (JSVal.str "abc") :=
  ⟨_, rfl, (handleLimitChange_stores_value sampleProps loadedState (JSVal.str "abc")).2 _ rfl⟩

/-! ## Writes and reads of own properties -/

theorem ownLookup_overwriteOwn_same (l : List (String × JSVal)) (key : String) (value : JSVal)
    (h : key ∈ l.map Prod.fst) : ownLookup (overwriteOwn l key value) key = some value := by
  induction l with
  | nil => simp at h
  | cons kv rest ih =>
    obtain ⟨a, b⟩ := kv
    by_cases ha : a = key
    · simp [overwriteOwn, ownLookup, ha]
    · have hr : key ∈ rest.map Prod.fst := by
        simp only [List.map_cons, List.mem_cons] at h
        rcases h with h | h
        · exact absurd h.symm ha
        · exact h
      simp only [overwriteOwn, ownLookup, ha, if_false]
      exact ih hr

theorem ownLookup_overwriteOwn_ne (l : List (String × JSVal)) (key k : String) (value : JSVal)
    (h : k ≠ key) : ownLookup (overwriteOwn l key value) k = ownLookup l k := by
  induction l with
  | nil => rfl
  | cons kv rest ih =>
    obtain ⟨a, b⟩ := kv
    by_cases ha : a = key
    · have hak : ¬ a = k := fun e => h (e.symm.trans ha)
      simp only [overwriteOwn, if_pos ha, ownLookup, if_neg hak]
    · simp only [overwriteOwn, if_neg ha, ownLookup, ih]

theorem ownLookup_insertOwn_same (l : List (String × JSVal)) (key : String) (value : JSVal)
    (h : key ∉ l.map Prod.fst) : ownLookup (insertOwn l key value) key = some value := by
  induction l with
  | nil => simp [insertOwn, ownLookup]
  | cons kv rest ih =>
    obtain ⟨a, b⟩ := kv
    simp only [List.map_cons, List.mem_cons, not_or] at h
    have ha : ¬ a = key := fun e => h.1 e.symm
    by_cases hb : enumeratesBefore key a = true
    · simp only [insertOwn, if_pos hb, ownLookup, if_true]
    · simp only [insertOwn, if_neg hb, ownLookup, if_neg ha]
      exact ih h.2

theorem ownLookup_insertOwn_ne (l : List (String × JSVal)) (key k : String) (value : JSVal)
    (h : k ≠ key) : ownLookup (insertOwn l key value) k = ownLookup l k := by
  have hk : ¬ key = k := fun e => h e.symm
  induction l with
  | nil => simp only [insertOwn, ownLookup, if_neg hk]
  | cons kv rest ih =>
    obtain ⟨a, b⟩ := kv
    by_cases hb : enumeratesBefore key a = true
    · simp only [insertOwn, if_pos hb, ownLookup, if_neg hk]
    · simp only [insertOwn, if_neg hb, ownLookup, ih]

theorem keys_overwriteOwn (l : List (String × JSVal)) (key : String) (value : JSVal) :
    (overwriteOwn l key value).map Prod.fst = l.map Prod.fst := by
  induction l with
  | nil => rfl
  | cons kv rest ih =>
    obtain ⟨a, b⟩ := kv
    by_cases ha : a = key
    · simp only [overwriteOwn, if_pos ha, List.map_cons]
    · simp only [overwriteOwn, if_neg ha, List.map_cons, ih]

theorem mem_keys_insertOwn (l : List (String × JSVal)) (key k : String) (value : JSVal) :
    k ∈ (insertOwn l key value).map Prod.fst ↔ k = key ∨ k ∈ l.map Prod.fst := by
  induction l with
  | nil => simp [insertOwn]
  | cons kv rest ih =>
    obtain ⟨a, b⟩ := kv
    by_cases hb : enumeratesBefore key a = true
    · simp only [insertOwn, if_pos hb, List.map_cons, List.mem_cons]
    · simp only [insertOwn, if_neg hb, List.map_cons, List.mem_cons, ih]
      exact or_left_comm

theorem ownLookup_defineOwn (l : List (String × JSVal)) (key k : String) (value : JSVal) :
    ownLookup (defineOwn l key value) k = if k = key then some value else ownLookup l k := by
  unfold defineOwn
  by_cases hm : key ∈ l.map Prod.fst
  · by_cases hk : k = key
    · subst hk
      simp only [hm, if_true]
      exact ownLookup_overwriteOwn_same l k value hm
    · simp only [hm, if_true, hk, if_false]
      exact ownLookup_overwriteOwn_ne l key k value hk
  · by_cases hk : k = key
    · subst hk
      simp only [hm, if_false, if_true]
      exact ownLookup_insertOwn_same l k value hm
    · simp only [hm, hk, if_false]
      exact ownLookup_insertOwn_ne l key k value hk

theorem mem_keys_defineOwn (l : List (String × JSVal)) (key k : String) (value : JSVal) :
    k ∈ (defineOwn l key value).map Prod.fst ↔ k = key ∨ k ∈ l.map Prod.fst := by
  unfold defineOwn
  by_cases hm : key ∈ l.map Prod.fst
  · simp only [hm, if_true, keys_overwriteOwn]
    constructor
    · exact Or.inr
    · rintro (h | h)
      · exact h ▸ hm
      · exact h
  · simp only [hm, if_false]
    exact mem_keys_insertOwn l key k value

theorem set_of_ne_proto (obj : JSObject) (key : String) (value : JSVal)
    (h : key ≠ "__proto__") :
    JSObject.set obj key value = { obj with own := defineOwn obj.own key value } := by
  unfold JSObject.set
  simp [h]

theorem get_set (obj : JSObject) (key k : String) (value : JSVal) (h : key ≠ "__proto__") :
    JSObject.get (JSObject.set obj key value) k =
      if k = key then some value else JSObject.get obj k := by
  rw [set_of_ne_proto obj key value h]
  exact ownLookup_defineOwn obj.own key k value

theorem mem_keys_set (obj : JSObject) (key k : String) (value : JSVal)
    (h : key ≠ "__proto__") :
    k ∈ JSObject.keys (JSObject.set obj key value) ↔ k = key ∨ k ∈ JSObject.keys obj := by
  rw [set_of_ne_proto obj key value h]
  exact mem_keys_defineOwn obj.own key k value

theorem hasPrototype_set (obj : JSObject) (key : String) (value : JSVal)
    (h : key ≠ "__proto__") :
    (JSObject.set obj key value).hasPrototype = obj.hasPrototype := by
  rw [set_of_ne_proto obj key value h]

theorem mem_keys_set_imp (obj : JSObject) (key k : String) (value : JSVal)
    (hk : k ∈ JSObject.keys (JSObject.set obj key value)) :
    k = key ∨ k ∈ JSObject.keys obj := by
  unfold JSObject.set at hk
  split at hk
  · split at hk
    · exact Or.inr hk
    · exact Or.inr hk
  · exact (mem_keys_defineOwn obj.own key k value).1 hk

/-! ## The loop over a row -/

theorem rowToObject_eq_loopPrefix (names : List String) (row : List JSVal) :
    rowToObject names row = loopPrefix names row row.length := rfl

theorem loopPrefix_succ (names : List String) (row : List JSVal) (n : Nat) :
    loopPrefix names row (n + 1) =
      JSObject.set (loopPrefix names row n) (nameAt names n) (cell row n) := by
  unfold loopPrefix
  rw [List.range_succ, List.foldl_append]
  rfl

theorem nameAt_of_lt (names : List String) (n : Nat) (h : n < names.length) :
    nameAt names n = names[n] := by
  simp [nameAt, List.getElem?_eq_getElem h]

theorem nameAt_of_le (names : List String) (n : Nat) (h : names.length ≤ n) :
    nameAt names n = "undefined" := by
  simp [nameAt, List.getElem?_eq_none h]

theorem cell_of_lt (row : List JSVal) (n : Nat) (h : n < row.length) :
    cell row n = row[n] := by
  simp [cell, List.getElem?_eq_getElem h]

theorem nameAt_ne_proto (names : List String) (hp : "__proto__" ∉ names) (n : Nat) :
    nameAt names n ≠ "__proto__" := by
  by_cases h : n < names.length
  · rw [nameAt_of_lt names n h]
    intro e
    exact hp (e ▸ List.getElem_mem _)
  · rw [nameAt_of_le names n (by omega)]
    decide

theorem mem_keys_loopPrefix_imp (names : List String) (row : List JSVal) :
    ∀ n k, k ∈ JSObject.keys (loopPrefix names row n) → ∃ j, j < n ∧ k = nameAt names j := by
  intro n
  induction n with
  | zero => intro k hk; simp [loopPrefix, JSObject.keys, JSObject.empty] at hk
  | succ n ih =>
    intro k hk
    rw [loopPrefix_succ] at hk
    rcases mem_keys_set_imp _ _ _ _ hk with hk | hk
    · exact ⟨n, Nat.lt_succ_self n, hk⟩
    · obtain ⟨j, hj, e⟩ := ih k hk
      exact ⟨j, Nat.lt_succ_of_lt hj, e⟩

theorem mem_keys_loopPrefix (names : List String) (row : List JSVal)
    (hp : "__proto__" ∉ names) :
    ∀ n k, k ∈ JSObject.keys (loopPrefix names row n) ↔ ∃ j, j < n ∧ k = nameAt names j := by
  intro n k
  refine ⟨mem_keys_loopPrefix_imp names row n k, ?_⟩
  induction n with
  | zero => rintro ⟨j, hj, _⟩; omega
  | succ n ih =>
    rintro ⟨j, hj, e⟩
    rw [loopPrefix_succ, mem_keys_set _ _ _ _ (nameAt_ne_proto names hp n)]
    by_cases hjn : j = n
    · exact Or.inl (hjn ▸ e)
    · exact Or.inr (ih ⟨j, by omega, e⟩)

theorem hasPrototype_loopPrefix (names : List String) (row : List JSVal)
    (hp : "__proto__" ∉ names) : ∀ n, (loopPrefix names row n).hasPrototype = true := by
  intro n
  induction n with
  | zero => rfl
  | succ n ih => rw [loopPrefix_succ, hasPrototype_set _ _ _ (nameAt_ne_proto names hp n), ih]

theorem get_loopPrefix (names : List String) (row : List JSVal) (hn : names.Nodup)
    (hp : "__proto__" ∉ names) :
    ∀ n, n ≤ names.length → n ≤ row.length → ∀ j name, names.get? j = some name →
      JSObject.get (loopPrefix names row n) name = if j < n then row.get? j else none := by
  intro n
  induction n with
  | zero => intro _ _ j name _; rfl
  | succ n ih =>
    intro hm hr j name hj
    have hm' : n < names.length := by omega
    have hr' : n < row.length := by omega
    have hj' : names[j]? = some name := by simpa using hj
    obtain ⟨hjl, ej⟩ := List.getElem?_eq_some_iff.1 hj'
    rw [loopPrefix_succ, get_set _ _ _ _ (nameAt_ne_proto names hp n),
      nameAt_of_lt names n hm', cell_of_lt row n hr']
    by_cases hjn : j = n
    · subst hjn
      have hrow : row.get? j = some row[j] := by simp [List.getElem?_eq_getElem hr']
      simp [ej.symm, hrow]
    · have hne : ¬ name = names[n] := by
        intro e
        rw [← ej] at e
        exact hjn (hn.getElem_inj_iff.1 e)
      rw [if_neg hne, ih (by omega) (by omega) j name hj]
      by_cases hlt : j < n
      · have : j < n + 1 := by omega
        simp [hlt, this]
      · have : ¬ j < n + 1 := by omega
        simp [hlt, this]

theorem handleQueryResults_data (s : State) (message : Message) :
    (handleQueryResults s message).state.data = message.data.map (rowToObject message.names) := by
  unfold handleQueryResults
  cases h : message.data with
  | nil => rfl
  | cons r rs => rfl

theorem handleQueryResults_record (s : State) (rows : List (List JSVal)) (names : List String)
    (i : Nat) (row : List JSVal) (hi : rows.get? i = some row) :
    (handleQueryResults s { data := rows, names := names }).state.data.get? i =
      some (rowToObject names row) := by
  have hi' : rows[i]? = some row := by simpa using hi
  rw [handleQueryResults_data, List.get?_eq_getElem?, List.getElem?_map, hi']
  rfl

/-! ## Reshaping the result rows (C10) -/

/-- C10, counterexample: the names `__proto__` and `a` are distinct and the row
`[1, 2]` is as long as the name list, yet the record is `{a: 2}`: the write of
`__proto__` reaches the setter of `Object.prototype`, which ignores the
number, so the record does not map the first name to the first value. -/
theorem handleQueryResults_zips_names_counterexample :
    ["__proto__", "a"].Nodup ∧
    [JSVal.num 1, JSVal.num 2].length = ["__proto__", "a"].length ∧
    (handleQueryResults loadedState
        { data := [[JSVal.num 1, JSVal.num 2]], names := ["__proto__", "a"] }).state.data
      = [{ own := [("a", JSVal.num 2)], hasPrototype := true }] ∧
    JSObject.get { own := [("a", JSVal.num 2)], hasPrototype := true } "__proto__"
      ≠ some (JSVal.num 1) := by
  decide

/-- C10, amended: with pairwise distinct column names, none of them
`__proto__`, and every row as long as the name list, `handleQueryResults`
stores one record per row, in row order; the record of a row has the own
property `names[j]` with the value `row[j]` at every position `j`, its own
property names are exactly the names, and it is still an ordinary object. -/
theorem handleQueryResults_zips_names (s : State) (rows : List (List JSVal))
    (names : List String) (hn : names.Nodup) (hp : "__proto__" ∉ names)
    (hl : ∀ row ∈ rows, row.length = names.length) :
    (handleQueryResults s { data := rows, names := names }).state.data.length = rows.length ∧
    ∀ i row, rows.get? i = some row →
      ∃ obj, (handleQueryResults s { data := rows, names := names }).state.data.get? i = some obj ∧
        (∀ j name, names.get? j = some name → JSObject.get obj name = row.get? j) ∧
        (∀ k, k ∈ JSObject.keys obj ↔ k ∈ names) ∧
        obj.hasPrototype = true := by
  constructor
  · rw [handleQueryResults_data, List.length_map]
  · intro i row hi
    have hlen := hl row (List.get?_mem hi)
    refine ⟨rowToObject names row, handleQueryResults_record s rows names i row hi, ?_, ?_, ?_⟩
    · intro j name hj
      have hj' : names[j]? = some name := by simpa using hj
      obtain ⟨hjl, _⟩ := List.getElem?_eq_some_iff.1 hj'
      rw [rowToObject_eq_loopPrefix,
        get_loopPrefix names row hn hp row.length (by omega) (Nat.le_refl _) j name hj]
      have : j < row.length := by omega
      simp [this]
    · intro k
      rw [rowToObject_eq_loopPrefix, mem_keys_loopPrefix names row hp]
      constructor
      · rintro ⟨j, hj, e⟩
        rw [e, nameAt_of_lt names j (by omega)]
        exact List.getElem_mem _
      · intro hk
        obtain ⟨j, hj, e⟩ := List.mem_iff_getElem.1 hk
        exact ⟨j, by omega, by rw [nameAt_of_lt names j hj]; exact e.symm⟩
    · rw [rowToObject_eq_loopPrefix]
      exact hasPrototype_loopPrefix names row hp _

/-- Witness of the amended C10: the rows `[[1,2,3]]` with the names `a`, `b`,
`c` give the one record `{a:1, b:2, c:3}`. -/
theorem handleQueryResults_zips_names_witness :
    (handleQueryResults loadedState
      { data := [[JSVal.num 1, JSVal.num 2, JSVal.num 3]],
        names := ["a", "b", "c"] }).state.data =
      [{ own := [("a", JSVal.num 1), ("b", JSVal.num 2), ("c", JSVal.num 3)],
         hasPrototype := true }] ∧
    ∃ obj, (handleQueryResults loadedState
        { data := [[JSVal.num 1, JSVal.num 2, JSVal.num 3]],
          names := ["a", "b", "c"] }).state.data.get? 0 = some obj ∧
      (∀ j name, ["a", "b", "c"].get? j = some name →
        JSObject.get obj name = [JSVal.num 1, JSVal.num 2, JSVal.num 3].get? j) ∧
      (∀ k, k ∈ JSObject.keys obj ↔ k ∈ ["a", "b", "c"]) ∧
      obj.hasPrototype = true :=
  ⟨rfl,
    (handleQueryResults_zips_names loadedState [[JSVal.num 1, JSVal.num 2, JSVal.num 3]]
      ["a", "b", "c"] (by decide) (by decide) (by decide)).2 0
      [JSVal.num 1, JSVal.num 2, JSVal.num 3] rfl⟩

/-! ## Rows and name lists of different lengths (C11, C12) -/

theorem loopPrefix_take (names : List String) (row : List JSVal) (m : Nat) :
    ∀ n, n ≤ m → loopPrefix names (row.take m) n = loopPrefix names row n := by
  intro n
  induction n with
  | zero => intro _; rfl
  | succ n ih =>
    intro h
    have hc : cell (row.take m) n = cell row n := by
      simp only [cell, List.get?_eq_getElem?]
      rw [List.getElem?_take_of_lt (by omega)]
    rw [loopPrefix_succ, loopPrefix_succ, ih (by omega), hc]

theorem undefined_ne_proto : ("undefined" : String) ≠ "__proto__" := by decide

theorem get_loopPrefix_surplus (names : List String) (row : List JSVal) :
    ∀ k key, JSObject.get (loopPrefix names row (names.length + k + 1)) key =
      if key = "undefined" then some (cell row (names.length + k))
      else JSObject.get (loopPrefix names row names.length) key := by
  intro k
  induction k with
  | zero =>
    intro key
    show JSObject.get (loopPrefix names row (names.length + 1)) key =
      if key = "undefined" then some (cell row names.length)
      else JSObject.get (loopPrefix names row names.length) key
    rw [loopPrefix_succ, nameAt_of_le names _ (Nat.le_refl _),
      get_set _ _ _ _ undefined_ne_proto]
  | succ k ih =>
    intro key
    show JSObject.get (loopPrefix names row ((names.length + k + 1) + 1)) key = _
    rw [loopPrefix_succ, nameAt_of_le names _ (by omega), get_set _ _ _ _ undefined_ne_proto]
    by_cases hk : key = "undefined"
    · simp only [hk, if_true]
      rfl
    · simp only [hk, if_false]
      rw [ih key, if_neg hk]

theorem mem_keys_loopPrefix_surplus (names : List String) (row : List JSVal) :
    ∀ k key, key ∈ JSObject.keys (loopPrefix names row (names.length + k + 1)) ↔
      key = "undefined" ∨ key ∈ JSObject.keys (loopPrefix names row names.length) := by
  intro k
  induction k with
  | zero =>
    intro key
    rw [Nat.add_zero, loopPrefix_succ, nameAt_of_le names _ (Nat.le_refl _),
      mem_keys_set _ _ _ _ undefined_ne_proto]
  | succ k ih =>
    intro key
    show key ∈ JSObject.keys (loopPrefix names row ((names.length + k + 1) + 1)) ↔ _
    rw [loopPrefix_succ, nameAt_of_le names _ (by omega),
      mem_keys_set _ _ _ _ undefined_ne_proto, ih key]
    constructor
    · rintro (h | h)
      · exact Or.inl h
      · exact h
    · exact Or.inr

/-- C11: whatever the column names are, `handleQueryResults` applied to an empty
list of rows stores the empty list of records. -/
theorem handleQueryResults_no_rows (s : State) (names : List String) :
    (handleQueryResults s { data := [], names := names }).state.data = [] ∧
    (handleQueryResults s { data := [], names := names }).state.loading = some false ∧
    (handleQueryResults s { data := [], names := names }).error = none := by
  exact ⟨rfl, rfl, rfl⟩

/-- C12, counterexample: with the names `a`, `b`, `a` the row `[1, 2]` gives a
record that has an entry for the remaining third name (`a`); with the names
`__proto__`, `b`, `c` the row `[1, 2]` gives the record `{b: 2}`, which lacks
the first name; with the single name `undefined` the row `[1, 2]` gives a
record that stores the surplus value 2 under that column name. -/
theorem handleQueryResults_never_pads_counterexample :
    (handleQueryResults loadedState
        { data := [[JSVal.num 1, JSVal.num 2]], names := ["a", "b", "a"] }).state.data
      = [{ own := [("a", JSVal.num 1), ("b", JSVal.num 2)], hasPrototype := true }] ∧
    (["a", "b", "a"].get? 2 = some "a" ∧
      JSObject.get { own := [("a", JSVal.num 1), ("b", JSVal.num 2)], hasPrototype := true } "a"
        ≠ none) ∧
    (handleQueryResults loadedState
        { data := [[JSVal.num 1, JSVal.num 2]], names := ["__proto__", "b", "c"] }).state.data
      = [{ own := [("b", JSVal.num 2)], hasPrototype := true }] ∧
    (["__proto__", "b", "c"].Nodup ∧ ["__proto__", "b", "c"].get? 0 = some "__proto__" ∧
      JSObject.get { own := [("b", JSVal.num 2)], hasPrototype := true } "__proto__" = none) ∧
    (handleQueryResults loadedState
        { data := [[JSVal.num 1, JSVal.num 2]], names := ["undefined"] }).state.data
      = [{ own := [("undefined", JSVal.num 2)], hasPrototype := true }] ∧
    ("undefined" ∈ ["undefined"] ∧
      JSObject.get { own := [("undefined", JSVal.num 2)], hasPrototype := true } "undefined"
        = some (JSVal.num 2)) := by
  decide

/-- C12, amended: `handleQueryResults` never pads. A row shorter than a list of
pairwise distinct names, none of them `__proto__`, gives a record whose own
properties are exactly the first `row.length` names, each with the value at its
position, with no entry for a remaining name. A row longer than a list of
names that does not hold the text `undefined` gives the record of its first
`names.length` values with one more own property, named `undefined`, that holds
the last value of the row: the entries under the column names are not touched
by the surplus values. -/
theorem handleQueryResults_never_pads (s : State) (rows : List (List JSVal))
    (names : List String) (i : Nat) (row : List JSVal) (hi : rows.get? i = some row) :
    (handleQueryResults s { data := rows, names := names }).state.data.get? i
      = some (rowToObject names row) ∧
    (names.Nodup → "__proto__" ∉ names → row.length < names.length →
      (∀ j name, j < row.length → names.get? j = some name →
        JSObject.get (rowToObject names row) name = row.get? j) ∧
      (∀ k, k ∈ JSObject.keys (rowToObject names row) ↔ k ∈ names.take row.length) ∧
      ∀ j name, row.length ≤ j → names.get? j = some name →
        JSObject.get (rowToObject names row) name = none) ∧
    ("undefined" ∉ names → names.length < row.length →
      (∀ k, JSObject.get (rowToObject names row) k =
        if k = "undefined" then some (cell row (row.length - 1))
        else JSObject.get (rowToObject names (row.take names.length)) k) ∧
      (∀ name ∈ names, JSObject.get (rowToObject names row) name =
        JSObject.get (rowToObject names (row.take names.length)) name) ∧
      (∀ k, k ∈ JSObject.keys (rowToObject names row) ↔
        k = "undefined" ∨ k ∈ JSObject.keys (rowToObject names (row.take names.length))) ∧
      ∀ k ∈ JSObject.keys (rowToObject names (row.take names.length)), k ∈ names) := by
  refine ⟨handleQueryResults_record s rows names i row hi, ?_, ?_⟩
  · intro hn hp hlt
    have hg := get_loopPrefix names row hn hp row.length (by omega) (Nat.le_refl _)
    refine ⟨?_, ?_, ?_⟩
    · intro j name hj hname
      rw [rowToObject_eq_loopPrefix, hg j name hname, if_pos hj]
    · intro k
      rw [rowToObject_eq_loopPrefix, mem_keys_loopPrefix names row hp]
      constructor
      · rintro ⟨j, hj, e⟩
        rw [e, nameAt_of_lt names j (by omega)]
        exact List.mem_take_iff_getElem.2 ⟨j, by omega, rfl⟩
      · intro hk
        obtain ⟨j, hj, e⟩ := List.mem_take_iff_getElem.1 hk
        exact ⟨j, by omega, by rw [nameAt_of_lt names j (by omega)]; exact e.symm⟩
    · intro j name hj hname
      rw [rowToObject_eq_loopPrefix, hg j name hname, if_neg (by omega)]
  · intro hu hlt
    have hbase : rowToObject names (row.take names.length) =
        loopPrefix names row names.length := by
      rw [rowToObject_eq_loopPrefix, List.length_take,
        Nat.min_eq_left (Nat.le_of_lt hlt)]
      exact loopPrefix_take names row names.length names.length (Nat.le_refl _)
    obtain ⟨d, hd⟩ : ∃ d, row.length = names.length + d + 1 :=
      ⟨row.length - names.length - 1, by omega⟩
    have hlast : row.length - 1 = names.length + d := by omega
    have hget : ∀ k, JSObject.get (rowToObject names row) k =
        if k = "undefined" then some (cell row (row.length - 1))
        else JSObject.get (rowToObject names (row.take names.length)) k := by
      intro k
      rw [hbase, rowToObject_eq_loopPrefix, hlast, hd]
      exact get_loopPrefix_surplus names row d k
    refine ⟨hget, ?_, ?_, ?_⟩
    · intro name hname
      have hne : ¬ name = "undefined" := fun e => hu (e ▸ hname)
      rw [hget name, if_neg hne]
    · intro k
      rw [hbase, rowToObject_eq_loopPrefix, hd]
      exact mem_keys_loopPrefix_surplus names row d k
    · intro k hk
      rw [hbase] at hk
      obtain ⟨j, hj, e⟩ := mem_keys_loopPrefix_imp names row names.length k hk
      rw [e, nameAt_of_lt names j hj]
      exact List.getElem_mem _

/-- Witness of the amended C12: the names `a`, `b`, `c` with the short row
`[1, 2]`, and the names `a`, `b` with the long row `[1, 2, 3, 4]`. -/
theorem handleQueryResults_never_pads_witness :
    ((handleQueryResults loadedState
        { data := [[JSVal.num 1, JSVal.num 2]], names := ["a", "b", "c"] }).state.data.get? 0
      = some { own := [("a", JSVal.num 1), ("b", JSVal.num 2)], hasPrototype := true } ∧
      JSObject.get (rowToObject ["a", "b", "c"] [JSVal.num 1, JSVal.num 2]) "c" = none) ∧
    ((handleQueryResults loadedState
        { data := [[JSVal.num 1, JSVal.num 2, JSVal.num 3, JSVal.num 4]],
          names := ["a", "b"] }).state.data.get? 0
      = some { own := [("a", JSVal.num 1), ("b", JSVal.num 2), ("undefined", JSVal.num 4)],
               hasPrototype := true } ∧
      JSObject.get (rowToObject ["a", "b"] [JSVal.num 1, JSVal.num 2, JSVal.num 3, JSVal.num 4])
          "b" =
        JSObject.get (rowToObject ["a", "b"]
          ([JSVal.num 1, JSVal.num 2, JSVal.num 3, JSVal.num 4].take 2)) "b") :=
  ⟨⟨(handleQueryResults_never_pads loadedState [[JSVal.num 1, JSVal.num 2]] ["a", "b", "c"] 0
        [JSVal.num 1, JSVal.num 2] rfl).1,
      ((handleQueryResults_never_pads loadedState [[JSVal.num 1, JSVal.num 2]] ["a", "b", "c"] 0
        [JSVal.num 1, JSVal.num 2] rfl).2.1 (by decide) (by decide) (by decide)).2.2
          2 "c" (by decide) rfl⟩,
    ⟨(handleQueryResults_never_pads loadedState
        [[JSVal.num 1, JSVal.num 2, JSVal.num 3, JSVal.num 4]] ["a", "b"] 0
        [JSVal.num 1, JSVal.num 2, JSVal.num 3, JSVal.num 4] rfl).1,
      ((handleQueryResults_never_pads loadedState
        [[JSVal.num 1, JSVal.num 2, JSVal.num 3, JSVal.num 4]] ["a", "b"] 0
        [JSVal.num 1, JSVal.num 2, JSVal.num 3, JSVal.num 4] rfl).2.2
          (by decide) (by decide)).2.1 "b" (by decide)⟩⟩

/-! ## What the query depends on (C13, C14) -/

theorem getQueryForAPI_dataQuery (props : Props) (s : State) :
    dataQuery (getQueryForAPI props s) =
      match filterPhase s, s.providerConfig with
      | .ok fs, some cfg =>
        some { settings := cfg.settings
               queryData :=
                 { queryName := "drillDownQuery"
                   queryValues := drillDownQueryValues s selectPhase groupByPhase fs } }
      | _, _ => none := by
  unfold getQueryForAPI
  cases filterPhase s with
  | error e => rfl
  | ok fs =>
    cases h : s.providerConfig with
    | none => simp [assembleFetchDataQuery, withQueryName, h, dataQuery]
    | some cfg => simp [assembleFetchDataQuery, withQueryName, h, dataQuery]

/-- C13, counterexample: two states that agree on the four selections, the
limit and the time window, and differ in the second entry of the version list,
issue queries with different filter clauses, so with different query values. -/
theorem getQueryForAPI_selections_only_counterexample :
    sameSelectionsAndWindow versionSelectedState otherVersionsState ∧
    issuedFilterClause (getQueryForAPI sampleProps versionSelectedState) =
      some (JSVal.str "on apiVersion==\x272.0.0\x27") ∧
    issuedFilterClause (getQueryForAPI sampleProps otherVersionsState) =
      some (JSVal.str "on apiVersion==\x273.0.0\x27") ∧
    issuedQueryValues (getQueryForAPI sampleProps versionSelectedState) ≠
      issuedQueryValues (getQueryForAPI sampleProps otherVersionsState) := by
  have h1 : issuedFilterClause (getQueryForAPI sampleProps versionSelectedState) =
      some (JSVal.str "on apiVersion==\x272.0.0\x27") := rfl
  have h2 : issuedFilterClause (getQueryForAPI sampleProps otherVersionsState) =
      some (JSVal.str "on apiVersion==\x273.0.0\x27") := rfl
  refine ⟨by decide, h1, h2, ?_⟩
  intro h
  unfold issuedFilterClause at h1 h2
  rw [h, h2] at h1
  exact absurd h1 (by decide)

/-- C13, amended: the query values are a function of the selections, the limit,
the time window and the version, operation and application lists: two states
that agree on these build the same filter, and the queries they issue have the
same query values, whatever the other state fields hold. -/
theorem getQueryForAPI_function_of_inputs (props : Props) (s t : State)
    (h : sameSelectionsAndWindow s t) (hl : sameOptionLists s t) :
    filterPhase s = filterPhase t ∧
    (∀ q1 q2, dataQuery (getQueryForAPI props s) = some q1 →
      dataQuery (getQueryForAPI props t) = some q2 →
      q1.queryData.queryValues = q2.queryData.queryValues) ∧
    (s.providerConfig.isSome = t.providerConfig.isSome →
      issuedQueryValues (getQueryForAPI props s) =
        issuedQueryValues (getQueryForAPI props t)) := by
  obtain ⟨h1, h2, h3, h4, h5, h6, h7, h8⟩ := h
  obtain ⟨l1, l2, l3⟩ := hl
  have hf : filterPhase s = filterPhase t := filterPhase_congr ⟨h1, h2, h3, h4, l1, l2, l3⟩
  have hv : ∀ fs, drillDownQueryValues s selectPhase groupByPhase fs =
      drillDownQueryValues t selectPhase groupByPhase fs := by
    intro fs
    simp only [drillDownQueryValues, h5, h6, h7, h8]
  refine ⟨hf, ?_, ?_⟩
  · intro q1 q2 e1 e2
    rw [getQueryForAPI_dataQuery] at e1 e2
    rw [hf] at e1
    cases hft : filterPhase t with
    | error e => rw [hft] at e1; cases hs : s.providerConfig <;> rw [hs] at e1 <;> cases e1
    | ok fs =>
      rw [hft] at e1 e2
      cases hs : s.providerConfig with
      | none => rw [hs] at e1; cases e1
      | some c1 =>
        cases ht : t.providerConfig with
        | none => rw [ht] at e2; cases e2
        | some c2 =>
          rw [hs] at e1
          rw [ht] at e2
          simp only [Option.some.injEq] at e1 e2
          rw [← e1, ← e2]
          exact hv fs
  · intro hc
    unfold issuedQueryValues
    rw [getQueryForAPI_dataQuery, getQueryForAPI_dataQuery, hf]
    cases hft : filterPhase t with
    | error e => cases hs : s.providerConfig <;> cases ht : t.providerConfig <;> rfl
    | ok fs =>
      cases hs : s.providerConfig with
      | none =>
        cases ht : t.providerConfig with
        | none => rfl
        | some c2 => rw [hs, ht] at hc; cases hc
      | some c1 =>
        cases ht : t.providerConfig with
        | none => rw [hs, ht] at hc; cases hc
        | some c2 =>
          simp only [Option.map_some', hv fs]

/-- Witness of the amended C13: the fully selected state, and the same state
with other result rows, loading flag, width, locale and API list. -/
theorem getQueryForAPI_function_of_inputs_witness :
    sameSelectionsAndWindow fullySelectedState otherDisplayState ∧
    sameOptionLists fullySelectedState otherDisplayState ∧
    issuedQueryValues (getQueryForAPI sampleProps fullySelectedState) =
      issuedQueryValues (getQueryForAPI sampleProps otherDisplayState) :=
  ⟨by decide, by decide,
    (getQueryForAPI_function_of_inputs sampleProps fullySelectedState otherDisplayState
      (by decide) (by decide)).2.2 rfl⟩

theorem pushVersionFilter_cons (s : State) (p : String) (acc : List String) :
    pushVersionFilter s (p :: acc) = (pushVersionFilter s acc).map (p :: ·) := by
  unfold pushVersionFilter
  by_cases h : s.selectedVersion = -1
  · simp [h, Except.map]
  · cases he : jsIndex s.versionList s.selectedVersion <;> simp [h, he, Except.map]

theorem pushResourceFilter_cons (s : State) (p : String) (acc : List String) :
    pushResourceFilter s (p :: acc) = (pushResourceFilter s acc).map (p :: ·) := by
  unfold pushResourceFilter
  by_cases h : s.selectedResource > -1
  · cases he : jsIndex s.operationList s.selectedResource <;> simp [h, he, Except.map]
  · simp [h, Except.map]

theorem pushAppFilter_cons (s : State) (p : String) (acc : List String) :
    pushAppFilter s (p :: acc) = (pushAppFilter s acc).map (p :: ·) := by
  unfold pushAppFilter
  by_cases h : s.selectedApp = -1
  · simp [h, Except.map]
  · cases he : jsIndex s.appList s.selectedApp <;> simp [h, he, Except.map]

theorem bind_map_cons (p : String) (m : Except JSError (List String))
    (g : List String → Except JSError (List String))
    (hg : ∀ acc, g (p :: acc) = (g acc).map (p :: ·)) :
    (m.map (p :: ·)) >>= g = (m >>= g).map (p :: ·) := by
  cases m with
  | error e => rfl
  | ok x => exact hg x

theorem filterPhase_with_api (s : State) (apiId : JSVal) (h : apiId ≠ JSVal.num (-1)) :
    filterPhase { s with selectedAPI := apiId } =
      (filterPhase { s with selectedAPI := JSVal.num (-1) }).map
        (predicate "apiName" apiId.toJSString :: ·) := by
  have e1 : pushApiFilter { s with selectedAPI := apiId } [] =
      [predicate "apiName" apiId.toJSString] := by
    rw [pushApiFilter_eq]; simp [h]
  have e0 : pushApiFilter { s with selectedAPI := JSVal.num (-1) } [] = [] := by
    rw [pushApiFilter_eq]; simp
  have e2 : pushVersionFilter { s with selectedAPI := apiId } =
      pushVersionFilter { s with selectedAPI := JSVal.num (-1) } := by
    funext acc; simp only [pushVersionFilter]
  have e3 : pushResourceFilter { s with selectedAPI := apiId } =
      pushResourceFilter { s with selectedAPI := JSVal.num (-1) } := by
    funext acc; simp only [pushResourceFilter]
  have e4 : pushAppFilter { s with selectedAPI := apiId } =
      pushAppFilter { s with selectedAPI := JSVal.num (-1) } := by
    funext acc; simp only [pushAppFilter]
  unfold filterPhase
  rw [e1, e0, e2, e3, e4, pushVersionFilter_cons, bind_map_cons _ _ _ (pushResourceFilter_cons _ _),
    bind_map_cons _ _ _ (pushAppFilter_cons _ _)]

theorem handleAPIChange_dataQuery (props : Props) (s : State) (apiId : JSVal) :
    dataQuery (handleAPIChange props s apiId) =
      dataQuery (getQueryForAPI props { s with selectedAPI := apiId }) := by
  have he : (handleAPIChange props s apiId).effects =
      (loadVersions props s apiId).effects ++
        (getQueryForAPI props { s with selectedAPI := apiId }).effects := by
    show (loadVersions props s apiId).effects ++
      (getQueryForAPI props { (loadVersions props s apiId).state with
        selectedAPI := apiId }).effects = _
    rw [loadVersions_state]
  unfold dataQuery
  rw [he]
  unfold loadVersions
  cases withQueryName s.providerConfig "listVersionsQuery" with
  | error e => rfl
  | ok cfg => rfl

/-- C14: for an API value other than the sentinel `-1`, the data request that
`handleAPIChange` issues is the query of the state with only `selectedAPI`
updated: its filter starts with the predicate on the new API name, and the
predicates after it are the version, operation and application predicates of
the state before the call, built from that state's selections and lists; the
version list, the operation list and the child selections are still those of
before the call. -/
theorem handleAPIChange_uses_partial_state (props : Props) (s : State) (apiId : JSVal)
    (h : apiId ≠ JSVal.num (-1)) :
    filterPhase { s with selectedAPI := apiId } =
      (filterPhase { s with selectedAPI := JSVal.num (-1) }).map
        (predicate "apiName" apiId.toJSString :: ·) ∧
    dataQuery (handleAPIChange props s apiId) =
      dataQuery (getQueryForAPI props { s with selectedAPI := apiId }) ∧
    (∀ q, dataQuery (handleAPIChange props s apiId) = some q →
      ∃ rest, filterPhase { s with selectedAPI := JSVal.num (-1) } = .ok rest ∧
        queryValue q "\x7b\x7bquerystring\x7d\x7d" =
          some (JSVal.str (specQueryString (predicate "apiName" apiId.toJSString :: rest)))) ∧
    (ValidIndices s →
      filterPhase { s with selectedAPI := JSVal.num (-1) } =
        .ok ((if s.selectedVersion = -1 then []
              else [predicate "apiVersion"
                (entryCell s.versionList s.selectedVersion 1).toJSString]) ++
            (if s.selectedResource = -1 then []
              else [predicate "apiResourceTemplate"
                      (entryCell s.operationList s.selectedResource 0).toJSString,
                    predicate "apiMethod"
                      (entryCell s.operationList s.selectedResource 1).toJSString]) ++
            (if s.selectedApp = -1 then []
              else [predicate "applicationName" (entryCell s.appList s.selectedApp 0).toJSString,
                    predicate "applicationOwner"
                      (entryCell s.appList s.selectedApp 1).toJSString]))) ∧
    (handleAPIChange props s apiId).state.versionList = s.versionList ∧
    (handleAPIChange props s apiId).state.operationList = s.operationList ∧
    (handleAPIChange props s apiId).state.selectedVersion = s.selectedVersion ∧
    (handleAPIChange props s apiId).state.selectedResource = s.selectedResource := by
  have hf := filterPhase_with_api s apiId h
  have hd := handleAPIChange_dataQuery props s apiId
  have hs := select_same props s (Selection.api apiId)
  refine ⟨hf, hd, ?_, ?_, hs.2.2.2.2.1, hs.2.2.2.2.2.1, hs.2.1, hs.2.2.1⟩
  · intro q hq
    rw [hd, getQueryForAPI_dataQuery, hf] at hq
    cases h0 : filterPhase { s with selectedAPI := JSVal.num (-1) } with
    | error e =>
      rw [h0] at hq
      cases hc : s.providerConfig <;> simp [Except.map, hc] at hq
    | ok rest =>
      rw [h0] at hq
      refine ⟨rest, rfl, ?_⟩
      cases hc : s.providerConfig with
      | none => simp [Except.map, hc] at hq
      | some cfg =>
        simp only [Except.map, hc, Option.some.injEq] at hq
        subst hq
        simp only [queryValue, drillDownQueryValues, querystring_eq_spec]
        rfl
  · intro hv
    have hv0 : ValidIndices { s with selectedAPI := JSVal.num (-1) } := hv
    rw [filterPhase_of_valid _ hv0]
    simp [specFilterPredicates]

/-- Witness of C14: in the fully selected state the API `Petstore` is selected;
the request filters on the new API name and on the version, operation and
application selected before. -/
theorem handleAPIChange_uses_partial_state_witness :
    ∃ q, dataQuery (handleAPIChange sampleProps fullySelectedState (JSVal.str "Petstore"))
        = some q ∧
      queryValue q "\x7b\x7bquerystring\x7d\x7d" =
        some (JSVal.str ("on apiName==\x27Petstore\x27 AND apiVersion==\x272.0.0\x27 AND " ++
          "apiResourceTemplate==\x27/menu\x27 AND apiMethod==\x27GET\x27 AND " ++
          "applicationName==\x27DefaultApplication\x27 AND applicationOwner==\x27admin\x27")) := by
  obtain ⟨rest, hr, hq⟩ :=
    (handleAPIChange_uses_partial_state sampleProps fullySelectedState (JSVal.str "Petstore")
      (by decide)).2.2.1 _ rfl
  refine ⟨_, rfl, ?_⟩
  rw [hq]
  have : rest = [ "apiVersion==\x272.0.0\x27", "apiResourceTemplate==\x27/menu\x27",
      "apiMethod==\x27GET\x27", "applicationName==\x27DefaultApplication\x27",
      "applicationOwner==\x27admin\x27" ] := by
    have h2 : filterPhase { fullySelectedState with selectedAPI := JSVal.num (-1) } =
        .ok [ "apiVersion==\x272.0.0\x27", "apiResourceTemplate==\x27/menu\x27",
          "apiMethod==\x27GET\x27", "applicationName==\x27DefaultApplication\x27",
          "applicationOwner==\x27admin\x27" ] := rfl
    rw [h2] at hr
    exact (Except.ok.inj hr).symm
  rw [this]
  rfl

/-! ## Releasing a channel before subscribing it again (C15) -/

/-- C15: the runs of `handleAPIChange` and `handleVersionChange` in the loaded
sample state. The data channel `w1` is unsubscribed before it is subscribed,
but the child-list channels `w1_loadVersions` and `w1_loadOperations` are
subscribed with no unsubscription of them anywhere in the run. The handlers
without a child list (`handleOperationChange`, `handleApplicationChange`,
`handleLimitChange`) only use the data channel and release it first. -/
theorem child_list_subscribed_without_release :
    (handleAPIChange sampleProps loadedState (JSVal.str "PizzaShack")).effects.map
        Effect.summary =
      [("subscribe", "w1_loadVersions"), ("unsubscribe", "w1"), ("subscribe", "w1")] ∧
    releasedBeforeSubscribeOn "w1" false
      (handleAPIChange sampleProps loadedState (JSVal.str "PizzaShack")).effects = true ∧
    releasedBeforeSubscribeOn "w1_loadVersions" false
      (handleAPIChange sampleProps loadedState (JSVal.str "PizzaShack")).effects = false ∧
    (handleVersionChange sampleProps loadedState 0).effects.map Effect.summary =
      [("subscribe", "w1_loadOperations"), ("unsubscribe", "w1"), ("subscribe", "w1")] ∧
    releasedBeforeSubscribeOn "w1" false
      (handleVersionChange sampleProps loadedState 0).effects = true ∧
    releasedBeforeSubscribeOn "w1_loadOperations" false
      (handleVersionChange sampleProps loadedState 0).effects = false ∧
    (handleOperationChange sampleProps loadedState 0).effects.map Effect.summary =
      [("unsubscribe", "w1"), ("subscribe", "w1")] ∧
    (handleApplicationChange sampleProps loadedState 0).effects.map Effect.summary =
      [("unsubscribe", "w1"), ("subscribe", "w1")] ∧
    (handleLimitChange sampleProps loadedState (JSVal.num 10)).effects.map Effect.summary =
      [("unsubscribe", "w1"), ("subscribe", "w1")] := by
  refine ⟨rfl, rfl, rfl, rfl, rfl, rfl, rfl, rfl, rfl⟩

/-! ## Lookups under index validity (C17) -/

theorem lookupInRange_of_valid (options : List (List JSVal)) (i : Int)
    (h : validEntryIndex i options) : lookupInRange options i := by
  obtain ⟨h0, h1, h2⟩ := h
  have hlt : i.toNat < options.length := by omega
  have hget : options.get? i.toNat = some options[i.toNat] := by
    simp [List.getElem?_eq_getElem hlt]
  have hd : options.getD i.toNat [] = options[i.toNat] := by
    simp [List.getD, List.getElem?_eq_getElem hlt]
  rw [hd] at h2
  refine ⟨options[i.toNat], by simp [jsIndex, h0, hget], ?_⟩
  have l0 : 0 < (options[i.toNat]).length := by omega
  have l1 : 1 < (options[i.toNat]).length := by omega
  exact ⟨(options[i.toNat])[0], (options[i.toNat])[1],
    by simp [List.getElem?_eq_getElem l0], by simp [List.getElem?_eq_getElem l1]⟩

theorem validIndex_of_validEntryIndex {options : List (List JSVal)} {i : Int}
    (h : validEntryIndex i options) : validIndex i options :=
  Or.inr ⟨h.1, h.2.1⟩

theorem pushResourceFilter_unselected (s : State) (acc : List String)
    (h : s.selectedResource ≤ -1) : pushResourceFilter s acc = .ok acc := by
  unfold pushResourceFilter
  have hn : ¬ s.selectedResource > -1 := by omega
  simp [hn]

theorem filterPhase_ok_of_indexValidity (s : State) (h : IndexValidity s) :
    ∃ fs, filterPhase s = .ok fs := by
  obtain ⟨hv, hr, ha⟩ := h
  have hv' : validIndex s.selectedVersion s.versionList :=
    hv.elim Or.inl validIndex_of_validEntryIndex
  have ha' : validIndex s.selectedApp s.appList :=
    ha.elim Or.inl validIndex_of_validEntryIndex
  unfold filterPhase
  rw [pushVersionFilter_valid s _ hv']
  show ∃ fs, pushResourceFilter s _ >>= pushAppFilter s = .ok fs
  rcases hr with hr | hr
  · rw [pushResourceFilter_unselected s _ hr]
    show ∃ fs, pushAppFilter s _ = .ok fs
    rw [pushAppFilter_valid s _ ha']
    exact ⟨_, rfl⟩
  · rw [pushResourceFilter_valid s _ (validIndex_of_validEntryIndex hr)]
    show ∃ fs, pushAppFilter s _ = .ok fs
    rw [pushAppFilter_valid s _ ha']
    exact ⟨_, rfl⟩

/-- C17: under the index-validity precondition (version and application
selection `-1` or the index of an entry, operation selection at most `-1` or
the index of an entry, indexed entries with at least two components) every
option list read of `getQueryForAPI` is in range, the method does not throw
while it builds the filter and hands the query to `assembleFetchDataQuery`,
and with the provider configuration loaded the query is issued without an
exception. -/
theorem getQueryForAPI_lookups_in_range (props : Props) (s : State) (h : IndexValidity s) :
    lookupsInRange s ∧
    ∃ fs, filterPhase s = .ok fs ∧
      getQueryForAPI props s = assembleFetchDataQuery props s selectPhase groupByPhase fs ∧
      ∀ cfg, s.providerConfig = some cfg →
        (getQueryForAPI props s).error = none ∧
        ∃ q, dataQuery (getQueryForAPI props s) = some q := by
  constructor
  · obtain ⟨hv, hr, ha⟩ := h
    refine ⟨fun hne => ?_, fun hgt => ?_, fun hne => ?_⟩
    · exact lookupInRange_of_valid _ _ (hv.resolve_left hne)
    · exact lookupInRange_of_valid _ _ (hr.resolve_left (by omega))
    · exact lookupInRange_of_valid _ _ (ha.resolve_left hne)
  · obtain ⟨fs, hf⟩ := filterPhase_ok_of_indexValidity s h
    have hq : getQueryForAPI props s =
        assembleFetchDataQuery props s selectPhase groupByPhase fs := by
      simp only [getQueryForAPI, hf]
    refine ⟨fs, hf, hq, ?_⟩
    intro cfg hcfg
    rw [hq]
    simp [assembleFetchDataQuery, withQueryName, hcfg, dataQuery]

/-- Witness of C17: the fully selected sample state. -/
theorem getQueryForAPI_lookups_in_range_witness :
    IndexValidity fullySelectedState ∧ lookupsInRange fullySelectedState ∧
    (getQueryForAPI sampleProps fullySelectedState).error = none :=
  ⟨by decide,
    (getQueryForAPI_lookups_in_range sampleProps fullySelectedState (by decide)).1,
    by
      obtain ⟨fs, _, _, hc⟩ :=
        (getQueryForAPI_lookups_in_range sampleProps fullySelectedState (by decide)).2
      exact (hc sampleConfig rfl).1⟩

/-! ## Index validity along the steps of the widget (C18) -/

theorem validIndices_of_same {s t : State} (h : sameFilterInputs s t) (ht : ValidIndices t) :
    ValidIndices s := by
  obtain ⟨_, h2, h3, h4, h5, h6, h7⟩ := h
  unfold ValidIndices at ht ⊢
  rw [h2, h3, h4, h5, h6, h7]
  exact ht

theorem andThen_state (o : Outcome) (next : State → Outcome)
    (h : ∀ st, (next st).state = st) : (o.andThen next).state = o.state := by
  unfold Outcome.andThen
  cases o.error with
  | some e => rfl
  | none => exact h o.state

theorem loadApps_state (props : Props) (s : State) : (loadApps props s).state = s := by
  unfold loadApps
  cases withQueryName s.providerConfig "listAppsQuery" <;> rfl

theorem loadApis_state (props : Props) (s : State) :
    (loadApis props s).state = (getQueryForAPI props s).state := by
  unfold loadApis
  rw [andThen_state, andThen_state]
  · rfl
  · exact loadApps_state props
  · intro st
    cases withQueryName st.providerConfig "listApisQuery" <;> rfl

theorem handlePublisherParameters_same (props : Props) (s : State) (m : PublisherMessage) :
    sameFilterInputs (handlePublisherParameters props s m).state s := by
  have h : (handlePublisherParameters props s m).state =
      (getQueryForAPI props { s with
        timeFrom := m.fromValue, timeTo := m.toValue, perValue := m.granularity }).state := by
    unfold handlePublisherParameters
    rw [setStateThen_state _ _ _ _ rfl, loadApis_state]
  rw [h]
  exact getQueryForAPI_same props _

theorem handleLimitChange_same (props : Props) (s : State) (value : JSVal) :
    sameFilterInputs (handleLimitChange props s value).state s := by
  rw [handleLimitChange_state]
  exact getQueryForAPI_same props _

theorem handleQueryResults_same (s : State) (message : Message) :
    sameFilterInputs (handleQueryResults s message).state s := by
  unfold handleQueryResults
  cases message.data <;> simp [Outcome.done, sameFilterInputs]

/-- One step keeps the index selections valid when it is allowed and, when it
delivers an option list, the stored selection is valid for the list. -/
theorem run_preserves_validIndices (props : Props) (s : State) (e : WidgetEvent)
    (hs : ValidIndices s) (ha : e.allowed s) (hk : e.keepsSelection s) :
    ValidIndices (e.run props s).state := by
  obtain ⟨hv, hr, hp⟩ := hs
  cases e with
  | configurationLoaded cfg => exact ⟨hv, hr, hp⟩
  | configurationFailed => exact ⟨hv, hr, hp⟩
  | publisherParameters m =>
    exact validIndices_of_same (handlePublisherParameters_same props s m) ⟨hv, hr, hp⟩
  | apiChange value =>
    exact validIndices_of_same (select_same props s (Selection.api value)) ⟨hv, hr, hp⟩
  | versionChange value =>
    exact validIndices_of_same (select_same props s (Selection.version value)) ⟨ha, hr, hp⟩
  | operationChange value =>
    exact validIndices_of_same (select_same props s (Selection.operation value)) ⟨hv, ha, hp⟩
  | applicationChange value =>
    exact validIndices_of_same (select_same props s (Selection.application value)) ⟨hv, hr, ha⟩
  | limitChange value =>
    exact validIndices_of_same (handleLimitChange_same props s value) ⟨hv, hr, hp⟩
  | loadApis m => exact ⟨hv, hr, hp⟩
  | loadApps m => exact ⟨hv, hr, hk⟩
  | loadVersions m => exact ⟨hk, hr, hp⟩
  | loadOperations m => exact ⟨hv, hk, hp⟩
  | queryResults m =>
    exact validIndices_of_same (handleQueryResults_same s m) ⟨hv, hr, hp⟩

theorem runEvents_preserves_validIndices (props : Props) (events : List WidgetEvent) :
    ∀ s, ValidIndices s → keepingTrace props s events →
      ValidIndices (runEvents props s events) := by
  induction events with
  | nil => intro s hs _; exact hs
  | cons e rest ih =>
    intro s hs hk
    obtain ⟨ha, hke, hrest⟩ := hk
    exact ih _ (run_preserves_validIndices props s e hs ha hke) hrest

/-- C18, counterexample: from the constructed state, with every selection
handler called with a valid index of the list held at the time, the arrival of
shorter lists leaves the version, operation and application selections at 1
while each list has one entry; the next `getQueryForAPI` throws on the
lookup. The second trace uses only version handlers. -/
theorem index_validity_invariant_counterexample :
    allowedTrace sampleProps (constructor sampleProps sampleConstants) shrinkingTrace ∧
    ¬ validIndex
        (runEvents sampleProps (constructor sampleProps sampleConstants)
          shrinkingTrace).selectedVersion
        (runEvents sampleProps (constructor sampleProps sampleConstants)
          shrinkingTrace).versionList ∧
    ¬ validIndex
        (runEvents sampleProps (constructor sampleProps sampleConstants)
          shrinkingTrace).selectedResource
        (runEvents sampleProps (constructor sampleProps sampleConstants)
          shrinkingTrace).operationList ∧
    ¬ validIndex
        (runEvents sampleProps (constructor sampleProps sampleConstants)
          shrinkingTrace).selectedApp
        (runEvents sampleProps (constructor sampleProps sampleConstants)
          shrinkingTrace).appList ∧
    filterPhase (runEvents sampleProps (constructor sampleProps sampleConstants)
      shrinkingTrace) = .error JSError.typeError ∧
    allowedTrace sampleProps (constructor sampleProps sampleConstants) shortShrinkingTrace ∧
    ¬ ValidIndices
      (runEvents sampleProps (constructor sampleProps sampleConstants) shortShrinkingTrace) := by
  refine ⟨by decide, by decide, by decide, by decide, rfl, by decide, by decide⟩

/-- C18, amended: from the constructed state, index validity is kept by every
sequence of steps in which each index selection handler is called with `-1` or
a valid index of the list held at the time and each delivered version,
operation or application list still holds the index stored for it (the stored
selection is `-1` or an index of the delivered list); the other steps are
free. -/
theorem index_validity_kept (props : Props) (c : Constants) (events : List WidgetEvent)
    (h : keepingTrace props (constructor props c) events) :
    ValidIndices (constructor props c) ∧
    ValidIndices (runEvents props (constructor props c) events) := by
  have h0 : ValidIndices (constructor props c) := ⟨Or.inl rfl, Or.inl rfl, Or.inl rfl⟩
  exact ⟨h0, runEvents_preserves_validIndices props events _ h0 h⟩

/-- Witness of the amended C18: the session in which the lists arrive and the
last version, operation and application are selected. -/
theorem index_validity_kept_witness :
    keepingTrace sampleProps (constructor sampleProps sampleConstants) selectingTrace ∧
    ValidIndices
      (runEvents sampleProps (constructor sampleProps sampleConstants) selectingTrace) :=
  ⟨by decide,
    (index_validity_kept sampleProps sampleConstants selectingTrace (by decide)).2⟩

end AppAndAPIErrorsByTimeWidget
